import Mathlib

/-!
# Verification of the bittorrent repository's codecs

Shallow embedding of `src/bittorrent/bencoding/{decode,encode}.py` and
`src/bittorrent/messages/{message,message_decoder}.py`, together with
theorems settling the frozen claims about them.

Bytes are modelled as natural numbers (`Nat`); byte strings as `List Nat`.
Python integers are `Int`.  Fallible Python code returns `Except`.
The recursive-descent decoder's cursor is an `Int` (Python indices can go
negative and are interpreted relative to the end of the buffer), and the
decoder's recursion is bounded by an explicit fuel parameter because the
Python original can in principle loop (the cursor is not guaranteed to
advance on adversarial input); every theorem supplies sufficient fuel.
-/

namespace Bencode

/-- The shapes a bencode decode can produce: byte string, integer, list,
ordered mapping (`collections.OrderedDict`, modelled as an association
list that preserves insertion order). -/
inductive BValue where
  | str : List Nat → BValue
  | int : Int → BValue
  | list : List BValue → BValue
  | dict : List (List Nat × BValue) → BValue
deriving Inhabited

mutual

/-- Structural equality test for `BValue` (the nested inductive defeats
`deriving DecidableEq`). -/
def beqV : BValue → BValue → Bool
  | .str a, .str b => a = b
  | .int a, .int b => a = b
  | .list a, .list b => beqVs a b
  | .dict a, .dict b => beqPs a b
  | _, _ => false

/-- Elementwise `beqV` on lists of values. -/
def beqVs : List BValue → List BValue → Bool
  | [], [] => true
  | a :: as, b :: bs => beqV a b && beqVs as bs
  | _, _ => false

/-- Elementwise equality on key-value pair lists. -/
def beqPs : List (List Nat × BValue) → List (List Nat × BValue) → Bool
  | [], [] => true
  | (k1, v1) :: as, (k2, v2) :: bs => (k1 = k2 : Bool) && beqV v1 v2 && beqPs as bs
  | _, _ => false

end

/-- Custom induction principle for the nested inductive `BValue`. -/
theorem bvalueInduction (P : BValue → Prop)
    (hstr : ∀ s, P (.str s)) (hint : ∀ i, P (.int i))
    (hlist : ∀ l, (∀ x ∈ l, P x) → P (.list l))
    (hdict : ∀ d, (∀ kv ∈ d, P kv.2) → P (.dict d)) : ∀ v, P v := by
  have key : ∀ n v, sizeOf v ≤ n → P v := by
    intro n
    induction n with
    | zero =>
      intro v hv
      cases v <;> simp at hv
    | succ n ih =>
      intro v hv
      match v with
      | .str s => exact hstr s
      | .int i => exact hint i
      | .list l =>
        refine hlist l (fun x hx => ih x ?_)
        have h1 : sizeOf x < sizeOf l := List.sizeOf_lt_of_mem hx
        have h2 : sizeOf (BValue.list l) = 1 + sizeOf l := by simp
        omega
      | .dict d =>
        refine hdict d (fun kv hkv => ih kv.2 ?_)
        have h1 : sizeOf kv < sizeOf d := List.sizeOf_lt_of_mem hkv
        have h2 : sizeOf (BValue.dict d) = 1 + sizeOf d := by simp
        have h3 : sizeOf kv.2 < sizeOf kv := by
          obtain ⟨k, v2⟩ := kv
          simp
        omega
  intro v
  exact key (sizeOf v) v le_rfl

theorem beqV_iff : ∀ a b : BValue, beqV a b = true ↔ a = b := by
  intro a
  induction a using bvalueInduction with
  | hstr s => intro b; cases b <;> simp [beqV]
  | hint i => intro b; cases b <;> simp [beqV]
  | hlist l ih =>
    intro b
    cases b <;> simp [beqV]
    case list l2 =>
      induction l generalizing l2 with
      | nil => cases l2 <;> simp [beqVs]
      | cons x xs ihx =>
        cases l2 with
        | nil => simp [beqVs]
        | cons y ys =>
          have hx := ih x (by simp)
          have hxs : ∀ z ∈ xs, ∀ w, beqV z w = true ↔ z = w :=
            fun z hz => ih z (by simp [hz])
          simp [beqVs, hx y, ihx hxs ys]
  | hdict d ih =>
    intro b
    cases b <;> simp [beqV]
    case dict d2 =>
      induction d generalizing d2 with
      | nil => cases d2 <;> simp [beqPs]
      | cons x xs ihx =>
        cases d2 with
        | nil => simp [beqPs]
        | cons y ys =>
          obtain ⟨k1, v1⟩ := x
          obtain ⟨k2, v2⟩ := y
          have hx := ih (k1, v1) (by simp)
          have hxs : ∀ z ∈ xs, ∀ w, beqV z.2 w = true ↔ z.2 = w :=
            fun z hz => ih z (by simp [hz])
          simp [beqPs, hx v2, ihx hxs ys, and_assoc]

instance : DecidableEq BValue :=
  fun a b => decidable_of_iff (beqV a b = true) (beqV_iff a b)

instance {ε α : Type} [DecidableEq ε] [DecidableEq α] : DecidableEq (Except ε α)
  | .ok a, .ok b => decidable_of_iff (a = b) (by simp)
  | .ok _, .error _ => isFalse (by simp)
  | .error _, .ok _ => isFalse (by simp)
  | .error a, .error b => decidable_of_iff (a = b) (by simp)

/-- Errors the decoder in `decode.py` can surface: its own
`InvalidTorrentFileBencoding` exception, but also raw Python `KeyError`
(from the `self._bdecode[curr_byte]` dispatch-table lookup), `TypeError`
(from `Decoder.__init__` on empty input) and `IndexError` (out-of-range
byte access).  `noFuel` is the modelling artifact for exhausted fuel. -/
inductive BErr where
  | bencode : String → BErr
  | keyError : Nat → BErr
  | typeError : BErr
  | indexError : BErr
  | noFuel : BErr
deriving DecidableEq, Repr

/-- ASCII whitespace bytes stripped by Python's `int()`. -/
def isSpace (b : Nat) : Bool :=
  b = 32 || b = 9 || b = 10 || b = 11 || b = 12 || b = 13

/-- ASCII decimal digit bytes. -/
def isDigit (b : Nat) : Bool := 48 ≤ b && b ≤ 57

/-- Strip leading and trailing ASCII whitespace, as Python's `int()` does. -/
def stripSpaces (l : List Nat) : List Nat :=
  ((l.dropWhile isSpace).reverse.dropWhile isSpace).reverse

/-- Valid continuation of a digit run for Python's `int()`: digits, with
single underscores allowed only between digits. -/
def digitsTail : List Nat → Bool
  | [] => true
  | [b] => isDigit b
  | b :: c :: rest =>
    if isDigit b then digitsTail (c :: rest)
    else if b = 95 then isDigit c && digitsTail rest
    else false

/-- A digit span acceptable to Python's `int()` after sign/space handling:
nonempty, starts with a digit, and `digitsTail` holds for the rest. -/
def digitsOk : List Nat → Bool
  | [] => false
  | b :: rest => isDigit b && digitsTail rest

/-- Decimal value of a digit span (underscores skipped, as Python does). -/
def digitsVal (l : List Nat) : Nat :=
  (l.filter (fun b => b ≠ 95)).foldl (fun a b => a * 10 + (b - 48)) 0

/-- Python's `int(bytes)`: strip ASCII whitespace on both ends, accept one
leading `+` or `-`, then a digit run (underscores between digits allowed).
Returns `none` where Python raises `ValueError`. -/
def pyInt (l : List Nat) : Option Int :=
  match stripSpaces l with
  | [] => none
  | b :: rest =>
    if b = 43 then if digitsOk rest then some ((digitsVal rest : Int)) else none
    else if b = 45 then if digitsOk rest then some (-(digitsVal rest : Int)) else none
    else if digitsOk (b :: rest) then some ((digitsVal (b :: rest) : Int)) else none

/-- Clamp an index for Python slice semantics on a sequence of length `n`:
negative indices count from the end, then the result is clamped to
`[0, n]`. -/
def pyClamp (n : Nat) (i : Int) : Nat :=
  if i < 0 then n - min n (-i).toNat else min n i.toNat

/-- Python `data[a:b]` slice. -/
def pySlice (data : List Nat) (a b : Int) : List Nat :=
  (data.take (pyClamp data.length b)).drop (pyClamp data.length a)

/-- Python `data[i]` element access: negative indices count from the end;
out-of-range access is an `IndexError`. -/
def pyIndex (data : List Nat) (i : Int) : Except BErr Nat :=
  if 0 ≤ i then
    if i < (data.length : Int) then .ok (data.getD i.toNat 0) else .error .indexError
  else
    if (data.length : Int) + i < 0 then .error .indexError
    else .ok (data.getD ((data.length : Int) + i).toNat 0)

/-- Python `data.find(bytes([t]), start)`: index of the first occurrence of
byte `t` at or after `start` (clamped like a slice bound), `-1` if absent. -/
def pyFind (data : List Nat) (t : Nat) (start : Int) : Int :=
  let s := pyClamp data.length start
  match (data.drop s).findIdx? (fun b => b = t) with
  | some j => ((s + j : Nat) : Int)
  | none => -1

/-- Model of `Decoder._decode_str`: find the next colon, parse the prefix before it
with Python's `int()`, slice out that many bytes and advance the cursor
past them.  Returns the decoded byte string and the new cursor. -/
def decodeStr (data : List Nat) (cur : Int) : Except BErr (List Nat × Int) :=
  let colon := pyFind data 58 cur
  if colon = -1 then
    .error (.bencode "Expected to find a colon after string length")
  else
    match pyInt (pySlice data cur colon) with
    | none => .error (.bencode "Expected a valid integer to indicate the string length")
    | some strLength =>
      .ok (pySlice data (colon + 1) (colon + 1 + strLength), colon + 1 + strLength)

/-- Model of `Decoder._decode_int`: advance past `i`, find the terminating `e`,
reject a leading `0` (or `-0`) when the span has more than one byte, then
parse the span with Python's `int()`. -/
def decodeInt (data : List Nat) (cur : Int) : Except BErr (Int × Int) :=
  let cur1 := cur + 1
  let intEnd := pyFind data 101 cur1
  if intEnd = -1 then
    .error (.bencode "Expected to find an e to delimit the integer")
  else
    let i := pySlice data cur1 intEnd
    if 1 < i.length ∧ (i.headD 0 = 48 ∨ (i.headD 0 = 45 ∧ i.getD 1 0 = 48)) then
      .error (.bencode "Integers may not be represented with leading 0s")
    else
      match pyInt i with
      | none => .error (.bencode "Could not coerce the byte string to an integer")
      | some v => .ok (v, intEnd + 1)

/-- Model of `OrderedDict` assignment `d[key] = val`: replaces the value of an
existing key in place, otherwise appends the pair. -/
def odInsert (d : List (List Nat × BValue)) (k : List Nat) (v : BValue) :
    List (List Nat × BValue) :=
  match d with
  | [] => [(k, v)]
  | (k0, v0) :: rest => if k0 = k then (k0, v) :: rest else (k0, v0) :: odInsert rest k v

mutual

/-- The `self._bdecode[curr_byte]()` dispatch: read the byte at the cursor,
select the sub-decoder keyed by `l`, `d`, `i` or a decimal digit; any
other byte is a raw `KeyError`. -/
def decodeVal : Nat → List Nat → Int → Except BErr (BValue × Int)
  | 0, _, _ => .error .noFuel
  | fuel + 1, data, cur =>
    match pyIndex data cur with
    | .error e => .error e
    | .ok b =>
      if b = 108 then decodeList fuel data (cur + 1) []
      else if b = 100 then decodeDict fuel data (cur + 1) []
      else if b = 105 then
        match decodeInt data cur with
        | .error e => .error e
        | .ok (v, c) => .ok (.int v, c)
      else if isDigit b then
        match decodeStr data cur with
        | .error e => .error e
        | .ok (s, c) => .ok (.str s, c)
      else .error (.keyError b)

/-- Model of `Decoder._decode_list`'s loop: decode elements until the byte at the
cursor is `e` or the cursor reaches the end of the buffer, then advance
past the (presumed) terminator. -/
def decodeList : Nat → List Nat → Int → List BValue → Except BErr (BValue × Int)
  | 0, _, _, _ => .error .noFuel
  | fuel + 1, data, cur, acc =>
    if cur < (data.length : Int) then
      match pyIndex data cur with
      | .error e => .error e
      | .ok b =>
        if b = 101 then .ok (.list acc, cur + 1)
        else
          match decodeVal fuel data cur with
          | .error e => .error e
          | .ok (v, cur2) => decodeList fuel data cur2 (acc ++ [v])
    else .ok (.list acc, cur + 1)

/-- Model of `Decoder._decode_dict`'s loop: decode a key with `_decode_str`
(unconditionally), then a value via the dispatch table, store with
`OrderedDict` assignment, until `e` or end of buffer. -/
def decodeDict : Nat → List Nat → Int → List (List Nat × BValue) →
    Except BErr (BValue × Int)
  | 0, _, _, _ => .error .noFuel
  | fuel + 1, data, cur, acc =>
    if cur < (data.length : Int) then
      match pyIndex data cur with
      | .error e => .error e
      | .ok b =>
        if b = 101 then .ok (.dict acc, cur + 1)
        else
          match decodeStr data cur with
          | .error e => .error e
          | .ok (k, cur1) =>
            match decodeVal fuel data cur1 with
            | .error e => .error e
            | .ok (v, cur2) => decodeDict fuel data cur2 (odInsert acc k v)
    else .ok (.dict acc, cur + 1)

end

/-- Model of `decode(data)` top level: `Decoder.__init__` rejects empty input with
`TypeError`; `Decoder.decode` dispatches on the first byte and finally
checks that the cursor consumed the whole buffer. -/
def decodeTop (fuel : Nat) (data : List Nat) : Except BErr BValue :=
  if data.length = 0 then .error .typeError
  else
    match decodeVal fuel data 0 with
    | .error e => .error e
    | .ok (v, cur) =>
      if cur ≠ (data.length : Int) then
        .error (.bencode "The number of decoded bytes does not match the number of total bytes")
      else .ok v

/-- Fueled helper for `natToDigits` (structural recursion keeps the
definition kernel-computable). -/
def natToDigitsAux : Nat → Nat → List Nat
  | 0, _ => []
  | fuel + 1, n => if n < 10 then [48 + n] else natToDigitsAux fuel (n / 10) ++ [48 + n % 10]

/-- ASCII decimal digits of a natural number (canonical, no leading
zeros), as produced by Python's `str()`. -/
def natToDigits (n : Nat) : List Nat := natToDigitsAux (n + 1) n

theorem natToDigitsAux_irrel : ∀ n f g, n < f → n < g →
    natToDigitsAux f n = natToDigitsAux g n := by
  intro n
  induction n using Nat.strong_induction_on with
  | _ n ih =>
    intro f g hf hg
    match f, g with
    | f1 + 1, g1 + 1 =>
      by_cases h10 : n < 10
      · simp [natToDigitsAux, h10]
      · have hd : n / 10 < n := Nat.div_lt_self (by omega) (by omega)
        simp only [natToDigitsAux, if_neg h10]
        rw [ih (n / 10) hd f1 g1 (by omega) (by omega)]

/-- The recursive unfolding of `natToDigits`. -/
theorem natToDigits_eq (n : Nat) :
    natToDigits n = if n < 10 then [48 + n] else natToDigits (n / 10) ++ [48 + n % 10] := by
  have hstep : natToDigitsAux (n + 1) n =
      if n < 10 then [48 + n] else natToDigitsAux n (n / 10) ++ [48 + n % 10] := rfl
  by_cases h10 : n < 10
  · simp [natToDigits, hstep, h10]
  · have hd : n / 10 < n := Nat.div_lt_self (by omega) (by omega)
    rw [natToDigits, hstep, if_neg h10, if_neg h10,
      natToDigitsAux_irrel (n / 10) n (n / 10 + 1) (by omega) (by omega)]
    rfl

/-- Model of `str(i).encode()` for a Python int `i`. -/
def intEnc (i : Int) : List Nat :=
  if i < 0 then 45 :: natToDigits (-i).toNat else natToDigits i.toNat

/-- UTF-8 encoding of one Unicode code point. -/
def utf8Char (c : Nat) : List Nat :=
  if c < 128 then [c]
  else if c < 2048 then [192 + c / 64, 128 + c % 64]
  else if c < 65536 then [224 + c / 4096, 128 + c / 64 % 64, 128 + c % 64]
  else [240 + c / 262144, 128 + c / 4096 % 64, 128 + c / 64 % 64, 128 + c % 64]

/-- Model of `s.encode()` for a Python str modelled as its code points. -/
def utf8 (s : List Nat) : List Nat := (s.map utf8Char).flatten

/-- The runtime shapes `encode.py` can receive: the types in its
`_encode_func` dispatch table, plus `unsupported` standing for a value of
any type outside the table (tagged with the type's name).  Python `str`
values carry their Unicode code points. -/
inductive PyVal where
  | int : Int → PyVal
  | bool : Bool → PyVal
  | str : List Nat → PyVal
  | bytes : List Nat → PyVal
  | list : List PyVal → PyVal
  | tuple : List PyVal → PyVal
  | dict : List (PyVal × PyVal) → PyVal
  | unsupported : String → PyVal

/-- Exceptions the recursive per-type encoders can raise: the `KeyError`
from `self._encode_func[type(...)]` on a type outside the dispatch table
(carrying the type name), and the `UnicodeEncodeError` from `s.encode()`
on a str holding a lone surrogate. -/
inductive EncErr where
  | keyError : String → EncErr
  | unicodeEncodeError : EncErr
deriving DecidableEq, Repr

/-- What `encode(data)` can be observed to raise: its own
`InvalidBencodeDataType` exception, or an escaped `UnicodeEncodeError` —
the `try/except` in `Encoder.encode` names `UnicodeDecodeError` (which
the encoding direction never raises) and `KeyError`, so an encoding
error passes through uncaught. -/
inductive EncodeError where
  | invalidBencodeDataType : String → EncodeError
  | uncaughtUnicodeEncodeError : EncodeError
deriving DecidableEq, Repr

/-- Code points CPython's UTF-8 codec refuses to encode (lone
surrogates). -/
def isSurrogate (c : Nat) : Bool := 55296 ≤ c && c ≤ 57343

/-- Model of Python `s.encode()` on a str of code points: the UTF-8
bytes, or `UnicodeEncodeError` when the string contains a surrogate. -/
def pyStrEncode (s : List Nat) : Except EncErr (List Nat) :=
  if s.any isSurrogate then .error .unicodeEncodeError else .ok (utf8 s)

mutual

/-- Model of `Encoder._encode_func[type(v)](v)`: the per-type encoders of
`encode.py`.  `_encode_bool` delegates to `_encode_int` with 1 or 0;
`_encode_str` encodes the text with `s.encode()`, which can raise
`UnicodeEncodeError`. -/
def encodeVal : PyVal → Except EncErr (List Nat)
  | .int i => .ok (105 :: intEnc i ++ [101])
  | .bool b => if b then .ok (105 :: intEnc 1 ++ [101]) else .ok (105 :: intEnc 0 ++ [101])
  | .str s =>
    match pyStrEncode s with
    | .error e => .error e
    | .ok bs => .ok (natToDigits s.length ++ 58 :: bs)
  | .bytes b => .ok (natToDigits b.length ++ 58 :: b)
  | .list l =>
    match encodeElems l with
    | .error e => .error e
    | .ok parts => .ok (108 :: parts ++ [101])
  | .tuple l =>
    match encodeElems l with
    | .error e => .error e
    | .ok parts => .ok (108 :: parts ++ [101])
  | .dict d =>
    match encodePairs d with
    | .error e => .error e
    | .ok parts => .ok (100 :: parts ++ [101])
  | .unsupported t => .error (.keyError t)

/-- Model of `_encode_list`'s loop body: encode elements in order. -/
def encodeElems : List PyVal → Except EncErr (List Nat)
  | [] => .ok []
  | x :: rest =>
    match encodeVal x with
    | .error e => .error e
    | .ok a =>
      match encodeElems rest with
      | .error e => .error e
      | .ok b => .ok (a ++ b)

/-- Model of `_encode_dict`'s loop body: encode key then value for each pair. -/
def encodePairs : List (PyVal × PyVal) → Except EncErr (List Nat)
  | [] => .ok []
  | (k, v) :: rest =>
    match encodeVal k with
    | .error e => .error e
    | .ok a =>
      match encodeVal v with
      | .error e => .error e
      | .ok b =>
        match encodePairs rest with
        | .error e => .error e
        | .ok c => .ok (a ++ b ++ c)

end

/-- Model of `encode(data)` top level: runs the dispatch and converts an
escaped `KeyError` to `InvalidBencodeDataType`, as the `try/except` in
`Encoder.encode` does; a `UnicodeEncodeError` matches neither
`except UnicodeDecodeError` nor `except KeyError` and escapes
uncaught. -/
def encodeTop (v : PyVal) : Except EncodeError (List Nat) :=
  match encodeVal v with
  | .error (.keyError t) => .error (.invalidBencodeDataType t)
  | .error .unicodeEncodeError => .error .uncaughtUnicodeEncodeError
  | .ok b => .ok b

mutual

/-- View a decoded `BValue` as the Python value the decoder would have
returned (byte strings are `bytes`, mappings are `OrderedDict`). -/
def toPy : BValue → PyVal
  | .str s => .bytes s
  | .int i => .int i
  | .list l => .list (toPys l)
  | .dict d => .dict (toPyPairs d)

/-- Elementwise `toPy`. -/
def toPys : List BValue → List PyVal
  | [] => []
  | v :: rest => toPy v :: toPys rest

/-- Pairwise `toPy` on mapping entries. -/
def toPyPairs : List (List Nat × BValue) → List (PyVal × PyVal)
  | [] => []
  | (k, v) :: rest => (.bytes k, toPy v) :: toPyPairs rest

end

mutual

/-- The byte string `encode.py` produces for a decoded value: a direct
functional form of the encoder on the four decoder-produced shapes. -/
def encB : BValue → List Nat
  | .str s => natToDigits s.length ++ 58 :: s
  | .int i => 105 :: intEnc i ++ [101]
  | .list l => 108 :: encBs l ++ [101]
  | .dict d => 100 :: encBPairs d ++ [101]

/-- Concatenated encodings of list elements. -/
def encBs : List BValue → List Nat
  | [] => []
  | v :: rest => encB v ++ encBs rest

/-- Concatenated encodings of mapping pairs (key then value). -/
def encBPairs : List (List Nat × BValue) → List Nat
  | [] => []
  | (k, v) :: rest => (natToDigits k.length ++ 58 :: k) ++ encB v ++ encBPairs rest

end

mutual

/-- Fuel sufficient for `decodeVal` to decode `encB v`: one unit per
dispatch plus one per container-loop iteration. -/
def needFuel : BValue → Nat
  | .str _ => 1
  | .int _ => 1
  | .list l => 1 + needFuelList l
  | .dict d => 1 + needFuelDict d

/-- Fuel for the list loop over the remaining elements. -/
def needFuelList : List BValue → Nat
  | [] => 1
  | v :: rest => 1 + max (needFuel v) (needFuelList rest)

/-- Fuel for the dict loop over the remaining pairs. -/
def needFuelDict : List (List Nat × BValue) → Nat
  | [] => 1
  | kv :: rest => 1 + max (needFuel kv.2) (needFuelDict rest)

end

/-- No key occurs twice (a Python dict cannot hold duplicate keys). -/
def nodupKeys : List (List Nat) → Bool
  | [] => true
  | k :: rest => !(decide (k ∈ rest)) && nodupKeys rest

mutual

/-- Well-formedness of a value for the round-trip claim: every mapping,
at every depth, has pairwise distinct keys (as Python dicts do). -/
def wfB : BValue → Bool
  | .str _ => true
  | .int _ => true
  | .list l => wfBs l
  | .dict d => nodupKeys (d.map Prod.fst) && wfBPairs d

/-- Conjunction of `wfB` over each element. -/
def wfBs : List BValue → Bool
  | [] => true
  | v :: rest => wfB v && wfBs rest

/-- Conjunction of `wfB` over each mapping value. -/
def wfBPairs : List (List Nat × BValue) → Bool
  | [] => true
  | kv :: rest => wfB kv.2 && wfBPairs rest

end

/-! ### Decimal printing and Python `int()` parsing -/

theorem natToDigits_all_digit : ∀ n, ∀ b ∈ natToDigits n, isDigit b = true := by
  intro n
  induction n using Nat.strong_induction_on with
  | _ n ih =>
    intro b hb
    rw [natToDigits_eq] at hb
    by_cases h10 : n < 10
    · rw [if_pos h10] at hb
      simp at hb
      subst hb
      simp only [isDigit, Bool.and_eq_true, decide_eq_true_eq]
      omega
    · rw [if_neg h10] at hb
      rcases List.mem_append.mp hb with h | h
      · exact ih (n / 10) (Nat.div_lt_self (by omega) (by omega)) b h
      · simp at h
        have hm : n % 10 < 10 := Nat.mod_lt n (by omega)
        subst h
        simp only [isDigit, Bool.and_eq_true, decide_eq_true_eq]
        omega

theorem natToDigits_ne_nil (n : Nat) : natToDigits n ≠ [] := by
  rw [natToDigits_eq]
  by_cases h10 : n < 10 <;> simp [h10]

theorem headD_append_of_ne_nil {xs : List Nat} (h : xs ≠ []) (ys : List Nat) (d : Nat) :
    (xs ++ ys).headD d = xs.headD d := by
  cases xs with
  | nil => exact absurd rfl h
  | cons a l => rfl

theorem natToDigits_headD_ne_48 : ∀ n, 1 ≤ n → (natToDigits n).headD 0 ≠ 48 := by
  intro n
  induction n using Nat.strong_induction_on with
  | _ n ih =>
    intro h1
    rw [natToDigits_eq]
    by_cases h10 : n < 10
    · simp [h10]
      omega
    · rw [if_neg h10, headD_append_of_ne_nil (natToDigits_ne_nil _)]
      exact ih (n / 10) (Nat.div_lt_self (by omega) (by omega)) (by omega)

theorem digitsTail_of_all : ∀ l : List Nat, (∀ b ∈ l, isDigit b = true) → digitsTail l = true := by
  intro l
  induction l with
  | nil => intro _; rfl
  | cons b rest ih =>
    intro h
    have hb : isDigit b = true := h b (by simp)
    cases rest with
    | nil => simpa [digitsTail] using hb
    | cons c r2 =>
      simp only [digitsTail, if_pos hb]
      exact ih (fun x hx => h x (by simp [hx]))

theorem digitsOk_natToDigits (n : Nat) : digitsOk (natToDigits n) = true := by
  cases hl : natToDigits n with
  | nil => exact absurd hl (natToDigits_ne_nil n)
  | cons b t =>
    have hall := natToDigits_all_digit n
    rw [hl] at hall
    simp [digitsOk, hall b (by simp)]
    exact digitsTail_of_all t (fun c hc => hall c (by simp [hc]))

theorem digitsVal_natToDigits : ∀ n, digitsVal (natToDigits n) = n := by
  intro n
  induction n using Nat.strong_induction_on with
  | _ n ih =>
    have hfilter : (natToDigits n).filter (fun b => b ≠ 95) = natToDigits n := by
      refine List.filter_eq_self.mpr (fun b hb => ?_)
      have := natToDigits_all_digit n b hb
      simp [isDigit] at this
      simp
      omega
    rw [digitsVal, hfilter]
    conv_lhs => rw [natToDigits_eq]
    by_cases h10 : n < 10
    · simp [h10]
    · rw [if_neg h10, List.foldl_append]
      have hval : (natToDigits (n / 10)).foldl (fun a b => a * 10 + (b - 48)) 0 = n / 10 := by
        have := ih (n / 10) (Nat.div_lt_self (by omega) (by omega))
        rw [digitsVal] at this
        have hf : (natToDigits (n / 10)).filter (fun b => b ≠ 95) = natToDigits (n / 10) := by
          refine List.filter_eq_self.mpr (fun b hb => ?_)
          have := natToDigits_all_digit (n / 10) b hb
          simp [isDigit] at this
          simp
          omega
        rwa [hf] at this
      simp [hval]
      omega

theorem stripSpaces_of_no_space : ∀ l : List Nat, (∀ b ∈ l, isSpace b = false) →
    stripSpaces l = l := by
  have hdrop : ∀ l : List Nat, (∀ b ∈ l, isSpace b = false) → l.dropWhile isSpace = l := by
    intro l h
    cases l with
    | nil => rfl
    | cons b t => simp [List.dropWhile, h b (by simp)]
  intro l h
  rw [stripSpaces, hdrop l h, hdrop l.reverse (fun b hb => h b (List.mem_reverse.mp hb)),
    List.reverse_reverse]

theorem isDigit_not_space {b : Nat} (h : isDigit b = true) : isSpace b = false := by
  simp [isDigit] at h
  simp [isSpace]
  omega

theorem pyInt_natToDigits (n : Nat) : pyInt (natToDigits n) = some ((n : Nat) : Int) := by
  have hall := natToDigits_all_digit n
  have hstrip : stripSpaces (natToDigits n) = natToDigits n :=
    stripSpaces_of_no_space _ (fun b hb => isDigit_not_space (hall b hb))
  cases hl : natToDigits n with
  | nil => exact absurd hl (natToDigits_ne_nil n)
  | cons b t =>
    rw [hl] at hstrip hall
    have hb : isDigit b = true := hall b (by simp)
    have hb48 : 48 ≤ b ∧ b ≤ 57 := by simp [isDigit] at hb; omega
    rw [pyInt, hstrip]
    have hok : digitsOk (b :: t) = true := by rw [← hl]; exact digitsOk_natToDigits n
    simp only [if_neg (by omega : ¬b = 43), if_neg (by omega : ¬b = 45), hok, if_pos]
    rw [← hl, digitsVal_natToDigits]

theorem intEnc_nonneg (i : Int) (h : 0 ≤ i) : intEnc i = natToDigits i.toNat := by
  rw [intEnc, if_neg (show ¬(i < 0) by omega)]

theorem intEnc_neg (i : Int) (h : i < 0) : intEnc i = 45 :: natToDigits (-i).toNat := by
  rw [intEnc, if_pos h]

theorem pyInt_intEnc (i : Int) : pyInt (intEnc i) = some i := by
  by_cases hneg : i < 0
  · rw [intEnc_neg i hneg]
    have hall := natToDigits_all_digit (-i).toNat
    have hstrip : stripSpaces (45 :: natToDigits (-i).toNat) = 45 :: natToDigits (-i).toNat := by
      refine stripSpaces_of_no_space _ (fun b hb => ?_)
      rcases List.mem_cons.mp hb with h | h
      · simp [h, isSpace]
      · exact isDigit_not_space (hall b h)
    rw [pyInt, hstrip]
    simp only [if_neg (by omega : ¬(45 : Nat) = 43), if_pos rfl, digitsOk_natToDigits, if_pos]
    rw [digitsVal_natToDigits]
    congr 1
    omega
  · rw [intEnc_nonneg i (by omega), pyInt_natToDigits]
    congr 1
    omega

/-! ### Python slicing, indexing and find at an append boundary -/

theorem pyClamp_cast (n m : Nat) (h : m ≤ n) : pyClamp n (m : Int) = m := by
  rw [pyClamp, if_neg (by omega : ¬((m : Int) < 0)), Int.toNat_natCast]
  exact min_eq_right h

theorem getD_append_len (pre : List Nat) (b : Nat) (l : List Nat) :
    (pre ++ b :: l).getD pre.length 0 = b := by
  induction pre with
  | nil => rfl
  | cons a t ih => simpa using ih

theorem pyIndex_append (pre : List Nat) (b : Nat) (l : List Nat) :
    pyIndex (pre ++ b :: l) (pre.length : Int) = .ok b := by
  have hlen : (pre.length : Int) < ((pre ++ b :: l).length : Int) := by
    simp
  rw [pyIndex, if_pos (by omega : (0 : Int) ≤ (pre.length : Int)), if_pos hlen,
    Int.toNat_natCast, getD_append_len]

theorem pySlice_extract (pre mid post : List Nat) :
    pySlice (pre ++ mid ++ post) (pre.length : Int) ((pre.length : Int) + (mid.length : Int)) =
      mid := by
  have h1 : pyClamp (pre ++ mid ++ post).length (pre.length : Int) = pre.length := by
    apply pyClamp_cast
    simp
  have h2 : pyClamp (pre ++ mid ++ post).length ((pre.length : Int) + (mid.length : Int)) =
      pre.length + mid.length := by
    rw [show (pre.length : Int) + (mid.length : Int) = ((pre.length + mid.length : Nat) : Int) by
      push_cast; ring]
    apply pyClamp_cast
    simp
  rw [pySlice, h1, h2]
  rw [show pre ++ mid ++ post = (pre ++ mid) ++ post by simp]
  rw [List.take_left' (by simp), List.drop_left' (by simp)]

theorem findIdx_mid (mid post : List Nat) (t : Nat) (h : ∀ b ∈ mid, b ≠ t) :
    (mid ++ t :: post).findIdx? (fun b => b = t) = some mid.length := by
  induction mid with
  | nil => simp [List.findIdx?_cons]
  | cons m ms ih =>
    have hm : m ≠ t := h m (by simp)
    simp only [List.cons_append, List.findIdx?_cons, decide_eq_true_eq]
    rw [if_neg hm, show (0 + 1 : Nat) = 0 + 1 from rfl, List.findIdx?_succ,
      ih (fun b hb => h b (by simp [hb]))]
    rfl

theorem pyFind_at (pre mid post : List Nat) (t : Nat) (h : ∀ b ∈ mid, b ≠ t) :
    pyFind (pre ++ mid ++ t :: post) t (pre.length : Int) =
      ((pre.length + mid.length : Nat) : Int) := by
  have h1 : pyClamp (pre ++ mid ++ t :: post).length (pre.length : Int) = pre.length := by
    apply pyClamp_cast
    simp
  rw [pyFind, h1]
  rw [show pre ++ mid ++ t :: post = pre ++ (mid ++ t :: post) by simp, List.drop_left,
    findIdx_mid mid post t h]

/-! ### Behaviour of the sub-decoders on canonically encoded input -/

theorem headD_mem {l : List Nat} (h : l ≠ []) : l.headD 0 ∈ l := by
  cases l with
  | nil => exact absurd rfl h
  | cons a t => simp

theorem natToDigits_len_lt10 (n : Nat) (h : n < 10) : (natToDigits n).length = 1 := by
  rw [natToDigits_eq, if_pos h]
  rfl

theorem pyIndex_at (data pre l : List Nat) (b : Nat) (a : Int)
    (hdata : data = pre ++ b :: l) (ha : a = (pre.length : Int)) :
    pyIndex data a = .ok b := by
  subst hdata ha
  exact pyIndex_append pre b l

theorem pySlice_at (data pre mid post : List Nat) (a b : Int)
    (hdata : data = pre ++ mid ++ post) (ha : a = (pre.length : Int))
    (hb : b = a + (mid.length : Int)) :
    pySlice data a b = mid := by
  subst hdata ha hb
  exact pySlice_extract pre mid post

theorem pyFind_found (data pre mid post : List Nat) (t : Nat) (s r : Int)
    (hdata : data = pre ++ mid ++ t :: post) (h : ∀ b ∈ mid, b ≠ t)
    (hs : s = (pre.length : Int)) (hr : r = (pre.length : Int) + (mid.length : Int)) :
    pyFind data t s = r := by
  subst hdata hs hr
  rw [pyFind_at pre mid post t h]
  push_cast
  ring

theorem decodeStr_spec (pre s post : List Nat) :
    decodeStr (pre ++ (natToDigits s.length ++ 58 :: s) ++ post) (pre.length : Int) =
      .ok (s, (pre.length : Int) + ((natToDigits s.length ++ 58 :: s).length : Int)) := by
  have hne58 : ∀ b ∈ natToDigits s.length, b ≠ 58 := by
    intro b hb
    have := natToDigits_all_digit s.length b hb
    simp [isDigit] at this
    omega
  have hfind : pyFind (pre ++ (natToDigits s.length ++ 58 :: s) ++ post) 58 (pre.length : Int) =
      (pre.length : Int) + ((natToDigits s.length).length : Int) :=
    pyFind_found _ pre (natToDigits s.length) (s ++ post) 58 _ _ (by simp) hne58 rfl rfl
  have hno : ¬((pre.length : Int) + ((natToDigits s.length).length : Int) = -1) := by omega
  have hslice1 : pySlice (pre ++ (natToDigits s.length ++ 58 :: s) ++ post) (pre.length : Int)
      ((pre.length : Int) + ((natToDigits s.length).length : Int)) = natToDigits s.length :=
    pySlice_at _ pre (natToDigits s.length) (58 :: (s ++ post)) _ _ (by simp) rfl rfl
  have hslice2 : pySlice (pre ++ (natToDigits s.length ++ 58 :: s) ++ post)
      ((pre.length : Int) + ((natToDigits s.length).length : Int) + 1)
      ((pre.length : Int) + ((natToDigits s.length).length : Int) + 1 + (s.length : Int)) = s :=
    pySlice_at _ (pre ++ natToDigits s.length ++ [58]) s post _ _ (by simp)
      (by simp; ring) rfl
  simp only [decodeStr, hfind, if_neg hno, hslice1, pyInt_natToDigits, hslice2]
  refine congrArg Except.ok ?_
  refine Prod.ext rfl ?_
  simp only [List.length_append, List.length_cons, List.length_nil]
  omega

theorem intEnc_mem (i : Int) : ∀ b ∈ intEnc i, b = 45 ∨ isDigit b = true := by
  intro b hb
  by_cases hneg : i < 0
  · rw [intEnc_neg i hneg] at hb
    rcases List.mem_cons.mp hb with h | h
    · exact Or.inl h
    · exact Or.inr (natToDigits_all_digit _ b h)
  · rw [intEnc_nonneg i (by omega)] at hb
    exact Or.inr (natToDigits_all_digit _ b hb)

theorem intEnc_ne_101 (i : Int) : ∀ b ∈ intEnc i, b ≠ 101 := by
  intro b hb
  rcases intEnc_mem i b hb with h | h
  · omega
  · simp [isDigit] at h
    omega

theorem intEnc_check_false (i : Int) :
    ¬(1 < (intEnc i).length ∧ ((intEnc i).headD 0 = 48 ∨
      ((intEnc i).headD 0 = 45 ∧ (intEnc i).getD 1 0 = 48))) := by
  by_cases hneg : i < 0
  · rw [intEnc_neg i hneg]
    have hm : 1 ≤ (-i).toNat := by omega
    have hne := natToDigits_ne_nil (-i).toNat
    have hhead := natToDigits_headD_ne_48 (-i).toNat hm
    cases hl : natToDigits (-i).toNat with
    | nil => exact absurd hl hne
    | cons x t =>
      rw [hl] at hhead
      simp only [List.headD_cons] at hhead
      rintro ⟨-, h48 | ⟨-, hsecond⟩⟩
      · simp at h48
      · rw [List.getD_cons_succ, List.getD_cons_zero] at hsecond
        exact hhead hsecond
  · rw [intEnc_nonneg i (by omega)]
    have hne := natToDigits_ne_nil i.toNat
    cases hl : natToDigits i.toNat with
    | nil => exact absurd hl hne
    | cons x t =>
      have hx : isDigit x = true := by
        have := natToDigits_all_digit i.toNat x (by rw [hl]; simp)
        exact this
      have hx48 : 48 ≤ x ∧ x ≤ 57 := by simp [isDigit] at hx; omega
      rintro ⟨hlen, h48 | ⟨h45, -⟩⟩
      · simp only [List.headD_cons] at h48
        have h10 : ¬(i.toNat < 10) := by
          intro h10
          have hlen1 := natToDigits_len_lt10 i.toNat h10
          rw [hl] at hlen1
          simp at hlen1
          simp [hlen1] at hlen
        have := natToDigits_headD_ne_48 i.toNat (by omega)
        rw [hl] at this
        simp only [List.headD_cons] at this
        exact this h48
      · simp only [List.headD_cons] at h45
        omega

theorem decodeInt_spec (pre : List Nat) (i : Int) (post : List Nat) :
    decodeInt (pre ++ (105 :: intEnc i ++ [101]) ++ post) (pre.length : Int) =
      .ok (i, (pre.length : Int) + ((105 :: intEnc i ++ [101]).length : Int)) := by
  have hfind : pyFind (pre ++ (105 :: intEnc i ++ [101]) ++ post) 101
      ((pre.length : Int) + 1) =
      (pre.length : Int) + 1 + ((intEnc i).length : Int) :=
    pyFind_found _ (pre ++ [105]) (intEnc i) post 101 _ _ (by simp) (intEnc_ne_101 i)
      (by simp) (by simp)
  have hno : ¬((pre.length : Int) + 1 + ((intEnc i).length : Int) = -1) := by omega
  have hslice : pySlice (pre ++ (105 :: intEnc i ++ [101]) ++ post) ((pre.length : Int) + 1)
      ((pre.length : Int) + 1 + ((intEnc i).length : Int)) = intEnc i :=
    pySlice_at _ (pre ++ [105]) (intEnc i) (101 :: post) _ _ (by simp) (by simp) rfl
  simp only [decodeInt, hfind, if_neg hno, hslice, if_neg (intEnc_check_false i), pyInt_intEnc]
  refine congrArg Except.ok ?_
  refine Prod.ext rfl ?_
  simp only [List.length_append, List.length_cons, List.length_nil]
  omega

/-! ### Decoding a canonically encoded value -/

theorem decodeStr_spec_at (data pre s post : List Nat) (cur : Int)
    (hdata : data = pre ++ (natToDigits s.length ++ 58 :: s) ++ post)
    (hcur : cur = (pre.length : Int)) :
    decodeStr data cur = .ok (s, cur + ((natToDigits s.length ++ 58 :: s).length : Int)) := by
  subst hdata hcur
  exact decodeStr_spec pre s post

theorem decodeInt_spec_at (data pre post : List Nat) (i : Int) (cur : Int)
    (hdata : data = pre ++ (105 :: intEnc i ++ [101]) ++ post)
    (hcur : cur = (pre.length : Int)) :
    decodeInt data cur = .ok (i, cur + ((105 :: intEnc i ++ [101]).length : Int)) := by
  subst hdata hcur
  exact decodeInt_spec pre i post

theorem encB_cons : ∀ v : BValue, ∃ b rest, encB v = b :: rest ∧ b ≤ 108 ∧ b ≠ 101 := by
  intro v
  match v with
  | .str s =>
    cases hl : natToDigits s.length with
    | nil => exact absurd hl (natToDigits_ne_nil _)
    | cons b t =>
      have hb := natToDigits_all_digit s.length b (by rw [hl]; simp)
      simp [isDigit] at hb
      exact ⟨b, t ++ 58 :: s, by simp [encB, hl], by omega, by omega⟩
  | .int i => exact ⟨105, intEnc i ++ [101], by simp [encB], by omega, by omega⟩
  | .list l => exact ⟨108, encBs l ++ [101], by simp [encB], by omega, by omega⟩
  | .dict d => exact ⟨100, encBPairs d ++ [101], by simp [encB], by omega, by omega⟩

/-- Inserting with `odInsert` on a fresh key appends the pair. -/
theorem odInsert_fresh (acc : List (List Nat × BValue)) (k : List Nat) (v : BValue)
    (h : k ∉ acc.map Prod.fst) : odInsert acc k v = acc ++ [(k, v)] := by
  induction acc with
  | nil => rfl
  | cons kv rest ih =>
    obtain ⟨k0, v0⟩ := kv
    rw [List.map_cons] at h
    simp only [List.mem_cons, not_or] at h
    rw [odInsert, if_neg (fun hh => h.1 hh.symm), ih h.2]
    rfl

theorem nodupKeys_iff : ∀ ks : List (List Nat), nodupKeys ks = true ↔ ks.Nodup := by
  intro ks
  induction ks with
  | nil => simp [nodupKeys]
  | cons k rest ih =>
    simp [nodupKeys, ih]

/-- The statement proved about `decodeVal` on each canonically encoded,
well-formed value: starting at the cursor position where the encoding
begins, the value decodes and the cursor lands just past it. -/
def DVSpec (v : BValue) : Prop :=
  wfB v = true → ∀ (data pre post : List Nat) (cur : Int) (fuel : Nat),
    needFuel v ≤ fuel → data = pre ++ encB v ++ post → cur = (pre.length : Int) →
    decodeVal fuel data cur = .ok (v, cur + ((encB v).length : Int))

theorem decodeList_loop (l : List BValue) (hP : ∀ x ∈ l, DVSpec x) (hwf : wfBs l = true) :
    ∀ (data pre post : List Nat) (acc : List BValue) (cur : Int) (fuel : Nat),
    needFuelList l ≤ fuel → data = pre ++ encBs l ++ 101 :: post → cur = (pre.length : Int) →
    decodeList fuel data cur acc =
      .ok (.list (acc ++ l), cur + ((encBs l).length : Int) + 1) := by
  induction l with
  | nil =>
    intro data pre post acc cur fuel hf hdata hcur
    cases fuel with
    | zero => simp [needFuelList] at hf
    | succ f =>
      have hlt : cur < (data.length : Int) := by
        subst hdata hcur
        simp
        omega
      have hidx : pyIndex data cur = .ok 101 :=
        pyIndex_at data pre post 101 cur (by simpa using hdata) hcur
      simp [decodeList, if_pos hlt, hidx, encBs]
  | cons v rest ih =>
    intro data pre post acc cur fuel hf hdata hcur
    cases fuel with
    | zero => simp [needFuelList] at hf
    | succ f =>
      have hfv : needFuel v ≤ f ∧ needFuelList rest ≤ f := by
        rw [needFuelList] at hf
        have := max_le_iff.mp (by omega : max (needFuel v) (needFuelList rest) ≤ f)
        exact this
      obtain ⟨b, brest, hb, hb108, hb101⟩ := encB_cons v
      have hwfv : wfB v = true ∧ wfBs rest = true := by
        rw [wfBs] at hwf
        exact ⟨(Bool.and_eq_true _ _ |>.mp hwf).1, (Bool.and_eq_true _ _ |>.mp hwf).2⟩
      have hlt : cur < (data.length : Int) := by
        subst hdata hcur
        simp [encBs, hb]
        omega
      have hidx : pyIndex data cur = .ok b := by
        refine pyIndex_at data pre (brest ++ encBs rest ++ 101 :: post) b cur ?_ hcur
        subst hdata
        simp [encBs, hb]
      have hval : decodeVal f data cur = .ok (v, cur + ((encB v).length : Int)) := by
        refine hP v (by simp) hwfv.1 data pre (encBs rest ++ 101 :: post) cur f hfv.1 ?_ hcur
        subst hdata
        simp [encBs]
      have hrec := ih (fun x hx => hP x (by simp [hx])) hwfv.2 data (pre ++ encB v) post
        (acc ++ [v]) (cur + ((encB v).length : Int)) f hfv.2
        (by subst hdata; simp [encBs]) (by subst hcur; simp)
      simp only [decodeList, if_pos hlt, hidx, if_neg hb101, hval, hrec]
      refine congrArg Except.ok ?_
      refine Prod.ext (by simp) ?_
      simp [encBs]
      ring

theorem decodeDict_loop (d : List (List Nat × BValue)) (hP : ∀ kv ∈ d, DVSpec kv.2)
    (hwf : wfBPairs d = true) :
    ∀ (data pre post : List Nat) (acc : List (List Nat × BValue)) (cur : Int) (fuel : Nat),
    needFuelDict d ≤ fuel → data = pre ++ encBPairs d ++ 101 :: post →
    cur = (pre.length : Int) → ((acc ++ d).map Prod.fst).Nodup →
    decodeDict fuel data cur acc =
      .ok (.dict (acc ++ d), cur + ((encBPairs d).length : Int) + 1) := by
  induction d with
  | nil =>
    intro data pre post acc cur fuel hf hdata hcur hnd
    cases fuel with
    | zero => simp [needFuelDict] at hf
    | succ f =>
      have hlt : cur < (data.length : Int) := by
        subst hdata hcur
        simp
        omega
      have hidx : pyIndex data cur = .ok 101 :=
        pyIndex_at data pre post 101 cur (by simpa using hdata) hcur
      simp [decodeDict, if_pos hlt, hidx, encBPairs]
  | cons kv rest ih =>
    obtain ⟨k, v⟩ := kv
    intro data pre post acc cur fuel hf hdata hcur hnd
    cases fuel with
    | zero => simp [needFuelDict] at hf
    | succ f =>
      have hfv : needFuel v ≤ f ∧ needFuelDict rest ≤ f := by
        have hf2 : 1 + max (needFuel v) (needFuelDict rest) ≤ f + 1 := by
          rw [needFuelDict] at hf
          simpa using hf
        exact max_le_iff.mp (by omega)
      have hwfv : wfB v = true ∧ wfBPairs rest = true := by
        rw [wfBPairs] at hwf
        exact ⟨(Bool.and_eq_true _ _ |>.mp hwf).1, (Bool.and_eq_true _ _ |>.mp hwf).2⟩
      obtain ⟨b, t, hbt⟩ : ∃ b t, natToDigits k.length = b :: t := by
        cases hl : natToDigits k.length with
        | nil => exact absurd hl (natToDigits_ne_nil _)
        | cons b t => exact ⟨b, t, rfl⟩
      have hbdig := natToDigits_all_digit k.length b (by rw [hbt]; simp)
      have hb57 : 48 ≤ b ∧ b ≤ 57 := by simp [isDigit] at hbdig; omega
      have hlt : cur < (data.length : Int) := by
        subst hdata hcur
        simp [encBPairs, hbt]
        omega
      have hidx : pyIndex data cur = .ok b := by
        refine pyIndex_at data pre (t ++ 58 :: k ++ encB v ++ encBPairs rest ++ 101 :: post)
          b cur ?_ hcur
        subst hdata
        simp [encBPairs, hbt]
      have hkey : decodeStr data cur =
          .ok (k, cur + ((natToDigits k.length ++ 58 :: k).length : Int)) := by
        refine decodeStr_spec_at data pre k (encB v ++ encBPairs rest ++ 101 :: post) cur ?_ hcur
        subst hdata
        simp [encBPairs]
      have hval : decodeVal f data (cur + ((natToDigits k.length ++ 58 :: k).length : Int)) =
          .ok (v, cur + ((natToDigits k.length ++ 58 :: k).length : Int) +
            ((encB v).length : Int)) := by
        refine hP (k, v) (by simp) hwfv.1 data (pre ++ (natToDigits k.length ++ 58 :: k))
          (encBPairs rest ++ 101 :: post) _ f hfv.1 ?_ ?_
        · subst hdata
          simp [encBPairs]
        · subst hcur
          simp
      have hfresh : k ∉ acc.map Prod.fst := by
        have h1 : (acc.map Prod.fst ++ k :: rest.map Prod.fst).Nodup := by
          simpa using hnd
        have h2 := (List.nodup_cons.mp (List.nodup_middle.mp h1)).1
        exact fun hmem => h2 (List.mem_append.mpr (Or.inl hmem))
      have hrec := ih (fun x hx => hP x (by simp [hx])) hwfv.2 data
        (pre ++ (natToDigits k.length ++ 58 :: k) ++ encB v) post (acc ++ [(k, v)])
        (cur + ((natToDigits k.length ++ 58 :: k).length : Int) + ((encB v).length : Int)) f
        hfv.2 (by subst hdata; simp [encBPairs]) (by subst hcur; simp; ring)
        (by simpa using hnd)
      simp only [decodeDict, if_pos hlt, hidx, if_neg (by omega : ¬b = 101), hkey, hval,
        odInsert_fresh acc k v hfresh, hrec]
      refine congrArg Except.ok ?_
      refine Prod.ext (by simp) ?_
      simp [encBPairs]
      ring

theorem decodeVal_spec : ∀ v : BValue, DVSpec v := by
  intro v
  induction v using bvalueInduction with
  | hstr s =>
    intro _ data pre post cur fuel hf hdata hcur
    cases fuel with
    | zero => simp [needFuel] at hf
    | succ f =>
      obtain ⟨b, t, hbt⟩ : ∃ b t, natToDigits s.length = b :: t := by
        cases hl : natToDigits s.length with
        | nil => exact absurd hl (natToDigits_ne_nil _)
        | cons b t => exact ⟨b, t, rfl⟩
      have hbdig := natToDigits_all_digit s.length b (by rw [hbt]; simp)
      have hb57 : 48 ≤ b ∧ b ≤ 57 := by simp [isDigit] at hbdig; omega
      have hidx : pyIndex data cur = .ok b := by
        refine pyIndex_at data pre (t ++ 58 :: s ++ post) b cur ?_ hcur
        subst hdata
        simp [encB, hbt]
      have hstr := decodeStr_spec_at data pre s post cur (by simpa [encB] using hdata) hcur
      simp only [decodeVal, hidx, if_neg (by omega : ¬b = 108), if_neg (by omega : ¬b = 100),
        if_neg (by omega : ¬b = 105), if_pos hbdig, hstr]
      refine congrArg Except.ok (Prod.ext rfl ?_)
      simp [encB]
  | hint i =>
    intro _ data pre post cur fuel hf hdata hcur
    cases fuel with
    | zero => simp [needFuel] at hf
    | succ f =>
      have hidx : pyIndex data cur = .ok 105 := by
        refine pyIndex_at data pre (intEnc i ++ [101] ++ post) 105 cur ?_ hcur
        subst hdata
        simp [encB]
      have hint := decodeInt_spec_at data pre post i cur (by simpa [encB] using hdata) hcur
      simp only [decodeVal, hidx, if_neg (by omega : ¬(105 : Nat) = 108),
        if_neg (by omega : ¬(105 : Nat) = 100), if_pos rfl, hint]
      refine congrArg Except.ok (Prod.ext rfl ?_)
      simp [encB]
  | hlist l ih =>
    intro hwf data pre post cur fuel hf hdata hcur
    cases fuel with
    | zero => simp [needFuel] at hf
    | succ f =>
      have hidx : pyIndex data cur = .ok 108 := by
        refine pyIndex_at data pre (encBs l ++ [101] ++ post) 108 cur ?_ hcur
        subst hdata
        simp [encB]
      have hloop := decodeList_loop l ih (by simpa [wfB] using hwf) data (pre ++ [108]) post []
        (cur + 1) f (by simp [needFuel] at hf; omega) (by subst hdata; simp [encB])
        (by subst hcur; simp)
      simp only [decodeVal, hidx, if_pos rfl, hloop]
      refine congrArg Except.ok (Prod.ext (by simp) ?_)
      simp [encB]
      ring
  | hdict d ih =>
    intro hwf data pre post cur fuel hf hdata hcur
    cases fuel with
    | zero => simp [needFuel] at hf
    | succ f =>
      have hidx : pyIndex data cur = .ok 100 := by
        refine pyIndex_at data pre (encBPairs d ++ [101] ++ post) 100 cur ?_ hcur
        subst hdata
        simp [encB]
      have hwf2 : nodupKeys (d.map Prod.fst) = true ∧ wfBPairs d = true := by
        rw [wfB] at hwf
        exact ⟨(Bool.and_eq_true _ _ |>.mp hwf).1, (Bool.and_eq_true _ _ |>.mp hwf).2⟩
      have hloop := decodeDict_loop d ih hwf2.2 data (pre ++ [100]) post [] (cur + 1) f
        (by simp [needFuel] at hf; omega) (by subst hdata; simp [encB])
        (by subst hcur; simp) (by simpa using (nodupKeys_iff _).mp hwf2.1)
      simp only [decodeVal, hidx, if_neg (by omega : ¬(100 : Nat) = 108), if_pos rfl, hloop]
      refine congrArg Except.ok (Prod.ext (by simp) ?_)
      simp [encB]
      ring

theorem encodeVal_toPy : ∀ v : BValue, encodeVal (toPy v) = .ok (encB v) := by
  intro v
  induction v using bvalueInduction with
  | hstr s => simp [toPy, encodeVal, encB]
  | hint i => simp [toPy, encodeVal, encB]
  | hlist l ih =>
    have helems : encodeElems (toPys l) = .ok (encBs l) := by
      induction l with
      | nil => simp [toPys, encodeElems, encBs]
      | cons x xs ihx =>
        have h1 := ih x (by simp)
        have h2 := ihx (fun z hz => ih z (by simp [hz]))
        simp [toPys, encodeElems, encBs, h1, h2]
    simp [toPy, encodeVal, encB, helems]
  | hdict d ih =>
    have hpairs : encodePairs (toPyPairs d) = .ok (encBPairs d) := by
      induction d with
      | nil => simp [toPyPairs, encodePairs, encBPairs]
      | cons kv rest ihx =>
        obtain ⟨k, v⟩ := kv
        have h1 := ih (k, v) (by simp)
        simp only at h1
        have h2 := ihx (fun z hz => ih z (by simp [hz]))
        simp [toPyPairs, encodePairs, encBPairs, encodeVal, h1, h2]
    simp [toPy, encodeVal, encB, hpairs]

theorem decodeTop_encB (v : BValue) (hwf : wfB v = true) :
    decodeTop (needFuel v) (encB v) = .ok v := by
  obtain ⟨b, rest, hb, -, -⟩ := encB_cons v
  have hne : ¬((encB v).length = 0) := by rw [hb]; simp
  have hval : decodeVal (needFuel v) (encB v) 0 = .ok (v, 0 + ((encB v).length : Int)) :=
    decodeVal_spec v hwf (encB v) [] [] 0 (needFuel v) le_rfl (by simp) (by simp)
  simp [decodeTop, hne, hval]

end Bencode

namespace Messages

/-- Errors the wire-message layer can raise: `ValueError` from the
`from_bytes` length checks and constructor validations, `struct.error`
from `struct.pack`/`struct.unpack`, and the decoder's own
`InvalidMessageStructure`. -/
inductive MsgErr where
  | valueError : String → MsgErr
  | structError : MsgErr
  | invalidMessageStructure : String → MsgErr
deriving DecidableEq, Repr

/-- Big-endian bytes of `v`, `w` bytes wide. -/
def beBytes : Nat → Nat → List Nat
  | 0, _ => []
  | w + 1, v => beBytes w (v / 256) ++ [v % 256]

/-- One unsigned big-endian `struct.pack` field (`B`, `H`, `I` for
`w` = 1, 2, 4): `struct.error` when the value is out of range. -/
def packU (w : Nat) (v : Int) : Except MsgErr (List Nat) :=
  if 0 ≤ v ∧ v < (2 : Int) ^ (8 * w) then .ok (beBytes w v.toNat) else .error .structError

/-- A `struct.pack` `Ns` field: truncate or zero-pad to exactly `n`
bytes. -/
def packS (n : Nat) (b : List Nat) : List Nat :=
  b.take n ++ List.replicate (n - b.length) 0

/-- Big-endian value of an unpacked field. -/
def beVal (l : List Nat) : Nat := l.foldl (fun a b => a * 256 + b) 0

/-- The `len`-byte field starting at byte `off` of an unpacked buffer. -/
def sliceN (p : List Nat) (off len : Nat) : List Nat := (p.drop off).take len

/-- The constant `b'BitTorrent protocol'`. -/
def BITTORRENT_PSTR_V1 : List Nat :=
  [66, 105, 116, 84, 111, 114, 114, 101, 110, 116, 32,
   112, 114, 111, 116, 111, 99, 111, 108]

/-- Model of `Handshake`: msg_len is `len(pstr) + 49 = 68`. -/
structure Handshake where
  msg_len : Int
  pstr_len : Int
  pstr : List Nat
  reserved : List Nat
  info_hash : List Nat
  peer_id : List Nat
deriving DecidableEq, Repr

/-- Model of `Handshake.__init__`: fixed protocol fields; `ValueError` unless
`info_hash` and `peer_id` are each exactly 20 bytes. -/
def handshakeInit (info_hash peer_id : List Nat) : Except MsgErr Handshake :=
  if info_hash.length ≠ 20 then .error (.valueError "The info hash must be 20 bytes long.")
  else if peer_id.length ≠ 20 then .error (.valueError "The peer ID must be 20 bytes long.")
  else .ok ⟨68, 19, BITTORRENT_PSTR_V1, List.replicate 8 0, info_hash, peer_id⟩

/-- Model of `Handshake.to_bytes`: `struct.pack` of `>B19s8s20s20s`. -/
def handshakeToBytes (h : Handshake) : Except MsgErr (List Nat) :=
  match packU 1 h.pstr_len with
  | .error e => .error e
  | .ok b0 =>
    .ok (b0 ++ packS 19 h.pstr ++ packS 8 h.reserved ++
      packS 20 h.info_hash ++ packS 20 h.peer_id)

/-- Model of `Handshake.from_bytes`: length must be exactly 68; rebuilds the
handshake from the unpacked `info_hash` and `peer_id` fields only. -/
def handshakeFromBytes (p : List Nat) : Except MsgErr Handshake :=
  if p.length ≠ 68 then .error (.valueError "Expected a byte string of length 68.")
  else handshakeInit (sliceN p 28 20) (sliceN p 48 20)

/-- Model of `KeepAlive`: msg_len 0. -/
structure KeepAlive where
  msg_len : Int
deriving DecidableEq, Repr

def keepAliveInit : KeepAlive := ⟨0⟩

/-- Model of `BaseMessage.to_bytes`: `struct.pack('>I', msg_len)`. -/
def keepAliveToBytes (m : KeepAlive) : Except MsgErr (List Nat) := packU 4 m.msg_len

def keepAliveFromBytes (p : List Nat) : Except MsgErr KeepAlive :=
  if p.length ≠ 4 then .error (.valueError "Expected a byte string of length 4.")
  else .ok keepAliveInit

/-- Model of `IDMessage.to_bytes`: `struct.pack('>IB', msg_len, msg_id)`. -/
def idToBytes (msgLen msgId : Int) : Except MsgErr (List Nat) :=
  match packU 4 msgLen with
  | .error e => .error e
  | .ok a =>
    match packU 1 msgId with
    | .error e => .error e
    | .ok b => .ok (a ++ b)

structure Choke where
  msg_len : Int
  msg_id : Int
deriving DecidableEq, Repr

def chokeInit : Choke := ⟨1, 0⟩

def chokeToBytes (m : Choke) : Except MsgErr (List Nat) := idToBytes m.msg_len m.msg_id

/-- Model of `IDMessage.from_bytes` (inherited by the four field-less variants):
only the total length is checked; the instance is rebuilt as `cls()`. -/
def chokeFromBytes (p : List Nat) : Except MsgErr Choke :=
  if p.length ≠ 5 then .error (.valueError "Expected a byte string of length 5.")
  else .ok chokeInit

structure Unchoke where
  msg_len : Int
  msg_id : Int
deriving DecidableEq, Repr

def unchokeInit : Unchoke := ⟨1, 1⟩

def unchokeToBytes (m : Unchoke) : Except MsgErr (List Nat) := idToBytes m.msg_len m.msg_id

def unchokeFromBytes (p : List Nat) : Except MsgErr Unchoke :=
  if p.length ≠ 5 then .error (.valueError "Expected a byte string of length 5.")
  else .ok unchokeInit

structure Interested where
  msg_len : Int
  msg_id : Int
deriving DecidableEq, Repr

def interestedInit : Interested := ⟨1, 2⟩

def interestedToBytes (m : Interested) : Except MsgErr (List Nat) := idToBytes m.msg_len m.msg_id

def interestedFromBytes (p : List Nat) : Except MsgErr Interested :=
  if p.length ≠ 5 then .error (.valueError "Expected a byte string of length 5.")
  else .ok interestedInit

structure NotInterested where
  msg_len : Int
  msg_id : Int
deriving DecidableEq, Repr

def notInterestedInit : NotInterested := ⟨1, 3⟩

def notInterestedToBytes (m : NotInterested) : Except MsgErr (List Nat) :=
  idToBytes m.msg_len m.msg_id

def notInterestedFromBytes (p : List Nat) : Except MsgErr NotInterested :=
  if p.length ≠ 5 then .error (.valueError "Expected a byte string of length 5.")
  else .ok notInterestedInit

structure Have where
  msg_len : Int
  msg_id : Int
  piece_index : Int
deriving DecidableEq, Repr

/-- Model of `Have.__init__`: no validation of `piece_index`. -/
def haveInit (piece_index : Int) : Have := ⟨5, 4, piece_index⟩

/-- Model of `Have.to_bytes`: `struct.pack('>IBI', ...)`. -/
def haveToBytes (m : Have) : Except MsgErr (List Nat) :=
  match packU 4 m.msg_len with
  | .error e => .error e
  | .ok a =>
    match packU 1 m.msg_id with
    | .error e => .error e
    | .ok b =>
      match packU 4 m.piece_index with
      | .error e => .error e
      | .ok c => .ok (a ++ b ++ c)

/-- Model of `Have.from_bytes`: length 9, then `struct.unpack('>IBI')` and only
field 2 (the piece index, bytes 5..8) is used. -/
def haveFromBytes (p : List Nat) : Except MsgErr Have :=
  if p.length ≠ 9 then .error (.valueError "Expected a byte string of length 9.")
  else .ok (haveInit (beVal (sliceN p 5 4)))

structure Bitfield where
  msg_len : Int
  msg_id : Int
  bitfield : List Nat
deriving DecidableEq, Repr

/-- Model of `Bitfield.__init__`: msg_len is `1 + len(bitfield)`. -/
def bitfieldInit (bf : List Nat) : Bitfield := ⟨1 + bf.length, 5, bf⟩

def bitfieldToBytes (m : Bitfield) : Except MsgErr (List Nat) :=
  match packU 4 m.msg_len with
  | .error e => .error e
  | .ok a =>
    match packU 1 m.msg_id with
    | .error e => .error e
    | .ok b => .ok (a ++ b ++ packS m.bitfield.length m.bitfield)

/-- Model of `Bitfield.from_bytes`: unpacks with format `>IB{len(payload)-5}s`;
a payload shorter than 5 bytes makes the byte count negative, which
`struct` rejects.  No other length check exists. -/
def bitfieldFromBytes (p : List Nat) : Except MsgErr Bitfield :=
  if p.length < 5 then .error .structError
  else .ok (bitfieldInit (p.drop 5))

/-- Fueled binary digits (most significant first, no leading zeros):
`natBits n` models `bin(n).lstrip('0b')` — note `bin(0)` strips to the
empty string since `lstrip` eats the `0` digit too. -/
def natBitsAux : Nat → Nat → List Bool
  | 0, _ => []
  | fuel + 1, n => if n = 0 then [] else natBitsAux fuel (n / 2) ++ [decide (n % 2 = 1)]

def natBits (n : Nat) : List Bool := natBitsAux (n + 1) n

/-- Model of `Bitfield.pieces_status`: for each byte, append one boolean per
character of `bin(byte_).lstrip('0b')`. -/
def piecesStatus (bf : List Nat) : List Bool := (bf.map natBits).flatten

/-- Modelled from the spec: the intended expansion, byte `i` bit `p`
(most significant first) becomes the boolean at piece index `8*i + p`. -/
def specPiecesStatus (bf : List Nat) : List Bool :=
  (bf.map (fun byte => (List.range 8).map (fun p => byte.testBit (7 - p)))).flatten

structure Request where
  msg_len : Int
  msg_id : Int
  index : Int
  begin : Int
  length : Int
deriving DecidableEq, Repr

def requestInit (index begin length : Int) : Request := ⟨13, 6, index, begin, length⟩

/-- Model of `Request.to_bytes`: `struct.pack('>IBIII', ...)`. -/
def requestToBytes (m : Request) : Except MsgErr (List Nat) :=
  match packU 4 m.msg_len with
  | .error e => .error e
  | .ok a =>
    match packU 1 m.msg_id with
    | .error e => .error e
    | .ok b =>
      match packU 4 m.index with
      | .error e => .error e
      | .ok c =>
        match packU 4 m.begin with
        | .error e => .error e
        | .ok d =>
          match packU 4 m.length with
          | .error e => .error e
          | .ok e2 => .ok (a ++ b ++ c ++ d ++ e2)

def requestFromBytes (p : List Nat) : Except MsgErr Request :=
  if p.length ≠ 17 then .error (.valueError "Expected a byte string of length 17.")
  else .ok (requestInit (beVal (sliceN p 5 4)) (beVal (sliceN p 9 4)) (beVal (sliceN p 13 4)))

structure Piece where
  msg_len : Int
  msg_id : Int
  index : Int
  begin : Int
  block : List Nat
deriving DecidableEq, Repr

def pieceInit (index begin : Int) (block : List Nat) : Piece :=
  ⟨9 + block.length, 7, index, begin, block⟩

def pieceToBytes (m : Piece) : Except MsgErr (List Nat) :=
  match packU 4 m.msg_len with
  | .error e => .error e
  | .ok a =>
    match packU 1 m.msg_id with
    | .error e => .error e
    | .ok b =>
      match packU 4 m.index with
      | .error e => .error e
      | .ok c =>
        match packU 4 m.begin with
        | .error e => .error e
        | .ok d => .ok (a ++ b ++ c ++ d ++ packS m.block.length m.block)

/-- Model of `Piece.from_bytes`: format `>IBII{len(payload)-13}s`; shorter than 13
bytes makes the byte count negative (`struct.error`); no length check
otherwise. -/
def pieceFromBytes (p : List Nat) : Except MsgErr Piece :=
  if p.length < 13 then .error .structError
  else .ok (pieceInit (beVal (sliceN p 5 4)) (beVal (sliceN p 9 4)) (p.drop 13))

structure Cancel where
  msg_len : Int
  msg_id : Int
  index : Int
  begin : Int
  length : Int
deriving DecidableEq, Repr

def cancelInit (index begin length : Int) : Cancel := ⟨13, 8, index, begin, length⟩

def cancelToBytes (m : Cancel) : Except MsgErr (List Nat) :=
  match packU 4 m.msg_len with
  | .error e => .error e
  | .ok a =>
    match packU 1 m.msg_id with
    | .error e => .error e
    | .ok b =>
      match packU 4 m.index with
      | .error e => .error e
      | .ok c =>
        match packU 4 m.begin with
        | .error e => .error e
        | .ok d =>
          match packU 4 m.length with
          | .error e => .error e
          | .ok e2 => .ok (a ++ b ++ c ++ d ++ e2)

def cancelFromBytes (p : List Nat) : Except MsgErr Cancel :=
  if p.length ≠ 17 then .error (.valueError "Expected a byte string of length 17.")
  else .ok (cancelInit (beVal (sliceN p 5 4)) (beVal (sliceN p 9 4)) (beVal (sliceN p 13 4)))

structure Port where
  msg_len : Int
  msg_id : Int
  port : Int
deriving DecidableEq, Repr

/-- Model of `Port.__init__`: the source checks
`not isinstance(port, int) and port < 0`; with `port` a Python int the
first conjunct is always false, so the guard can never fire. -/
def portInit (port : Int) : Except MsgErr Port :=
  if False ∧ port < 0 then .error (.valueError "Invalid port argument.")
  else .ok ⟨3, 9, port⟩

/-- Model of `Port.to_bytes`: `struct.pack('>IBH', ...)` — the port field is
packed as a 2-byte `H`. -/
def portToBytes (m : Port) : Except MsgErr (List Nat) :=
  match packU 4 m.msg_len with
  | .error e => .error e
  | .ok a =>
    match packU 1 m.msg_id with
    | .error e => .error e
    | .ok b =>
      match packU 2 m.port with
      | .error e => .error e
      | .ok c => .ok (a ++ b ++ c)

def portFromBytes (p : List Nat) : Except MsgErr Port :=
  if p.length ≠ 7 then .error (.valueError "Expected a byte string of length 7.")
  else portInit (beVal (sliceN p 5 2))

/-- The closed set of wire messages the dispatcher can return. -/
inductive WireMsg where
  | handshake : Handshake → WireMsg
  | keepAlive : KeepAlive → WireMsg
  | choke : Choke → WireMsg
  | unchoke : Unchoke → WireMsg
  | interested : Interested → WireMsg
  | notInterested : NotInterested → WireMsg
  | haveMsg : Have → WireMsg
  | bitfield : Bitfield → WireMsg
  | request : Request → WireMsg
  | piece : Piece → WireMsg
  | cancel : Cancel → WireMsg
  | port : Port → WireMsg
deriving DecidableEq, Repr

/-- Model of `MessageDecoder.decode_message`: reject short payloads, 4 bytes is
keep-alive, first byte 19 is (heuristically) a handshake, otherwise the
5th byte selects a variant from the id table; an id outside 0..9 is
`InvalidMessageStructure`.  Errors raised by the delegated `from_bytes`
propagate unchanged. -/
def decodeMessage (p : List Nat) : Except MsgErr WireMsg :=
  if p.length < 4 then
    .error (.invalidMessageStructure "Valid messages must be at least 4 bytes in length.")
  else if p.length = 4 then .ok (.keepAlive keepAliveInit)
  else if p.getD 0 0 = 19 then (handshakeFromBytes p).map .handshake
  else
    if p.getD 4 0 = 0 then (chokeFromBytes p).map .choke
    else if p.getD 4 0 = 1 then (unchokeFromBytes p).map .unchoke
    else if p.getD 4 0 = 2 then (interestedFromBytes p).map .interested
    else if p.getD 4 0 = 3 then (notInterestedFromBytes p).map .notInterested
    else if p.getD 4 0 = 4 then (haveFromBytes p).map .haveMsg
    else if p.getD 4 0 = 5 then (bitfieldFromBytes p).map .bitfield
    else if p.getD 4 0 = 6 then (requestFromBytes p).map .request
    else if p.getD 4 0 = 7 then (pieceFromBytes p).map .piece
    else if p.getD 4 0 = 8 then (cancelFromBytes p).map .cancel
    else if p.getD 4 0 = 9 then (portFromBytes p).map .port
    else .error (.invalidMessageStructure "Unknown message ID.")

end Messages

example : Bencode.decodeTop 9 [105, 52, 50, 101] = .ok (.int 42) := by decide

-- pieces_status on 0b10100000 matches the spec example
example : Messages.piecesStatus [160] =
    [true, false, true, false, false, false, false, false] := by decide

-- but on 0b01000000 it returns only seven booleans, the first one true
example : Messages.piecesStatus [64] =
    [true, false, false, false, false, false, false] := by decide

example : Messages.specPiecesStatus [64] =
    [false, true, false, false, false, false, false, false] := by decide

-- Choke round-trips through the dispatcher
example : Messages.decodeMessage [0, 0, 0, 1, 0] = .ok (.choke Messages.chokeInit) := by decide

-- Port(70000) constructs fine but to_bytes raises struct.error
example : Messages.portInit 70000 = .ok ⟨3, 9, 70000⟩ := by decide

example : Messages.portToBytes ⟨3, 9, 70000⟩ = .error .structError := by decide

example : Bencode.decodeTop 9 [52, 58, 115, 112, 97, 109] = .ok (.str [115, 112, 97, 109]) := by
  decide

-- b"l4:spam4:eggse" decodes to the two-element list
example : Bencode.decodeTop 9
    [108, 52, 58, 115, 112, 97, 109, 52, 58, 101, 103, 103, 115, 101] =
    .ok (.list [.str [115, 112, 97, 109], .str [101, 103, 103, 115]]) := by decide

-- b"d3:cow3:mooe" decodes to a one-entry mapping
example : Bencode.decodeTop 9 [100, 51, 58, 99, 111, 119, 51, 58, 109, 111, 111, 101] =
    .ok (.dict [([99, 111, 119], .str [109, 111, 111])]) := by decide

-- b"x" raises a raw KeyError from the dispatch-table lookup
example : Bencode.decodeTop 9 [120] = .error (.keyError 120) := by decide

-- b"1 :a" is accepted: the length prefix b"1 " goes through Python int()
example : Bencode.decodeTop 9 [49, 32, 58, 97] = .ok (.str [97]) := by decide

-- b"i+1e" is accepted by Python int()
example : Bencode.decodeTop 9 [105, 43, 49, 101] = .ok (.int 1) := by decide

-- b"3:ab" fails via the whole-buffer-consumed check
example : (Bencode.decodeTop 9 [51, 58, 97, 98]).isOk = false := by decide

-- b"i03e" and b"i-0e" are rejected
example : (Bencode.decodeTop 9 [105, 48, 51, 101]).isOk = false := by decide

example : (Bencode.decodeTop 9 [105, 45, 48, 101]).isOk = false := by decide

-- encoding: a bool encodes as i1e / i0e; an unsupported type is an error
example : Bencode.encodeTop (.bool true) = .ok [105, 49, 101] := by decide

example : Bencode.encodeTop (.list [.int 3, .unsupported "float"]) =
    .error (.invalidBencodeDataType "float") := by decide

namespace Bencode

mutual

/-- Whether a Python value contains, at any nesting depth, a value whose
type is outside the encoder's dispatch table. -/
def hasUnsupported : PyVal → Bool
  | .unsupported _ => true
  | .list l => hasUnsupportedL l
  | .tuple l => hasUnsupportedL l
  | .dict d => hasUnsupportedP d
  | _ => false

/-- Disjunction of `hasUnsupported` over list elements. -/
def hasUnsupportedL : List PyVal → Bool
  | [] => false
  | x :: rest => hasUnsupported x || hasUnsupportedL rest

/-- Disjunction of `hasUnsupported` over mapping pairs (keys and values). -/
def hasUnsupportedP : List (PyVal × PyVal) → Bool
  | [] => false
  | (k, v) :: rest => hasUnsupported k || hasUnsupported v || hasUnsupportedP rest

end

/-- Custom induction principle for the nested inductive `PyVal`. -/
theorem pyvalInduction (P : PyVal → Prop)
    (hint : ∀ i, P (.int i)) (hbool : ∀ b, P (.bool b))
    (hstr : ∀ s, P (.str s)) (hbytes : ∀ b, P (.bytes b))
    (hlist : ∀ l, (∀ x ∈ l, P x) → P (.list l))
    (htuple : ∀ l, (∀ x ∈ l, P x) → P (.tuple l))
    (hdict : ∀ d, (∀ kv ∈ d, P kv.1 ∧ P kv.2) → P (.dict d))
    (hunsup : ∀ t, P (.unsupported t)) : ∀ v, P v := by
  have key : ∀ n v, sizeOf v ≤ n → P v := by
    intro n
    induction n with
    | zero =>
      intro v hv
      cases v <;> simp at hv
    | succ n ih =>
      intro v hv
      match v with
      | .int i => exact hint i
      | .bool b => exact hbool b
      | .str s => exact hstr s
      | .bytes b => exact hbytes b
      | .unsupported t => exact hunsup t
      | .list l =>
        refine hlist l (fun x hx => ih x ?_)
        have h1 : sizeOf x < sizeOf l := List.sizeOf_lt_of_mem hx
        have h2 : sizeOf (PyVal.list l) = 1 + sizeOf l := by simp
        omega
      | .tuple l =>
        refine htuple l (fun x hx => ih x ?_)
        have h1 : sizeOf x < sizeOf l := List.sizeOf_lt_of_mem hx
        have h2 : sizeOf (PyVal.tuple l) = 1 + sizeOf l := by simp
        omega
      | .dict d =>
        refine hdict d (fun kv hkv => ?_)
        have h1 : sizeOf kv < sizeOf d := List.sizeOf_lt_of_mem hkv
        have h2 : sizeOf (PyVal.dict d) = 1 + sizeOf d := by simp
        have h3 : sizeOf kv.1 < sizeOf kv ∧ sizeOf kv.2 < sizeOf kv := by
          obtain ⟨a, b⟩ := kv
          constructor
          · simp
            omega
          · simp
        exact ⟨ih kv.1 (by omega), ih kv.2 (by omega)⟩
  intro v
  exact key (sizeOf v) v le_rfl

mutual

/-- Whether a Python value contains, at any nesting depth, a str holding
a lone-surrogate code point (which `s.encode()` cannot encode). -/
def hasSurrStr : PyVal → Bool
  | .str s => s.any isSurrogate
  | .list l => hasSurrStrL l
  | .tuple l => hasSurrStrL l
  | .dict d => hasSurrStrP d
  | _ => false

/-- Disjunction of `hasSurrStr` over list elements. -/
def hasSurrStrL : List PyVal → Bool
  | [] => false
  | x :: rest => hasSurrStr x || hasSurrStrL rest

/-- Disjunction of `hasSurrStr` over mapping pairs (keys and values). -/
def hasSurrStrP : List (PyVal × PyVal) → Bool
  | [] => false
  | (k, v) :: rest => hasSurrStr k || hasSurrStr v || hasSurrStrP rest

end

/-- On list elements free of surrogate strings, any error the element
loop raises is a `KeyError`. -/
theorem encodeElems_not_unicode (l : List PyVal)
    (ihAll : ∀ x ∈ l, hasSurrStr x = false →
      ∀ e, encodeVal x = .error e → ∃ t, e = EncErr.keyError t)
    (hs : hasSurrStrL l = false) :
    ∀ e, encodeElems l = .error e → ∃ t, e = EncErr.keyError t := by
  induction l with
  | nil =>
    intro e he
    simp [encodeElems] at he
  | cons x rest ih2 =>
    intro e he
    have hsx : hasSurrStr x = false ∧ hasSurrStrL rest = false := by
      rw [hasSurrStrL] at hs
      simpa using hs
    cases hx : encodeVal x with
    | error e1 =>
      simp [encodeElems, hx] at he
      subst he
      exact ihAll x (by simp) hsx.1 e1 hx
    | ok a =>
      cases hrest : encodeElems rest with
      | error e2 =>
        simp [encodeElems, hx, hrest] at he
        subst he
        exact ih2 (fun z hz => ihAll z (by simp [hz])) hsx.2 e2 hrest
      | ok b =>
        simp [encodeElems, hx, hrest] at he

/-- On mapping pairs free of surrogate strings, any error the pair loop
raises is a `KeyError`. -/
theorem encodePairs_not_unicode (d : List (PyVal × PyVal))
    (ihAll : ∀ kv ∈ d,
      (hasSurrStr kv.1 = false → ∀ e, encodeVal kv.1 = .error e → ∃ t, e = EncErr.keyError t) ∧
      (hasSurrStr kv.2 = false → ∀ e, encodeVal kv.2 = .error e → ∃ t, e = EncErr.keyError t))
    (hs : hasSurrStrP d = false) :
    ∀ e, encodePairs d = .error e → ∃ t, e = EncErr.keyError t := by
  induction d with
  | nil =>
    intro e he
    simp [encodePairs] at he
  | cons kv rest ih2 =>
    obtain ⟨k, v⟩ := kv
    intro e he
    have hsx : hasSurrStr k = false ∧ hasSurrStr v = false ∧ hasSurrStrP rest = false := by
      rw [hasSurrStrP] at hs
      simpa [and_assoc] using hs
    cases hk : encodeVal k with
    | error e1 =>
      simp [encodePairs, hk] at he
      subst he
      exact (ihAll (k, v) (by simp)).1 hsx.1 e1 hk
    | ok a =>
      cases hv : encodeVal v with
      | error e2 =>
        simp [encodePairs, hk, hv] at he
        subst he
        exact (ihAll (k, v) (by simp)).2 hsx.2.1 e2 hv
      | ok b =>
        cases hrest : encodePairs rest with
        | error e3 =>
          simp [encodePairs, hk, hv, hrest] at he
          subst he
          exact ih2 (fun z hz => ihAll z (by simp [hz])) hsx.2.2 e3 hrest
        | ok c =>
          simp [encodePairs, hk, hv, hrest] at he

/-- A value free of surrogate strings can only make the encoder raise
`KeyError`, never `UnicodeEncodeError`. -/
theorem encodeVal_not_unicode : ∀ v : PyVal, hasSurrStr v = false →
    ∀ e, encodeVal v = .error e → ∃ t, e = EncErr.keyError t := by
  intro v
  induction v using pyvalInduction with
  | hint i =>
    intro _ e he
    simp [encodeVal] at he
  | hbool b =>
    intro _ e he
    cases b <;> simp [encodeVal] at he
  | hstr s =>
    intro hs e he
    rw [hasSurrStr] at hs
    have henc : pyStrEncode s = .ok (utf8 s) := by
      rw [pyStrEncode, if_neg (by simp [hs])]
    simp [encodeVal, henc] at he
  | hbytes b =>
    intro _ e he
    simp [encodeVal] at he
  | hunsup t =>
    intro _ e he
    simp [encodeVal] at he
    exact ⟨t, he.symm⟩
  | hlist l ih =>
    intro hs e he
    rw [hasSurrStr] at hs
    cases helems : encodeElems l with
    | error e1 =>
      simp [encodeVal, helems] at he
      subst he
      exact encodeElems_not_unicode l (fun x hx => ih x hx) hs e1 helems
    | ok parts =>
      simp [encodeVal, helems] at he
  | htuple l ih =>
    intro hs e he
    rw [hasSurrStr] at hs
    cases helems : encodeElems l with
    | error e1 =>
      simp [encodeVal, helems] at he
      subst he
      exact encodeElems_not_unicode l (fun x hx => ih x hx) hs e1 helems
    | ok parts =>
      simp [encodeVal, helems] at he
  | hdict d ih =>
    intro hs e he
    rw [hasSurrStr] at hs
    cases hpairs : encodePairs d with
    | error e1 =>
      simp [encodeVal, hpairs] at he
      subst he
      exact encodePairs_not_unicode d
        (fun kv hkv => ⟨(ih kv hkv).1, (ih kv hkv).2⟩) hs e1 hpairs
    | ok parts =>
      simp [encodeVal, hpairs] at he

/-- On list elements free of surrogate strings, an unsupported element
somewhere in the list makes the element loop raise a `KeyError`. -/
theorem encodeElems_unsupported (l : List PyVal)
    (ihAll : ∀ x ∈ l, hasUnsupported x = true → hasSurrStr x = false →
      ∃ t, encodeVal x = .error (.keyError t))
    (ihNU : ∀ x ∈ l, hasSurrStr x = false →
      ∀ e, encodeVal x = .error e → ∃ t, e = EncErr.keyError t)
    (h : hasUnsupportedL l = true) (hs : hasSurrStrL l = false) :
    ∃ t, encodeElems l = .error (.keyError t) := by
  induction l with
  | nil => simp [hasUnsupportedL] at h
  | cons x rest ih2 =>
    have hsx : hasSurrStr x = false ∧ hasSurrStrL rest = false := by
      rw [hasSurrStrL] at hs
      simpa using hs
    cases hx : encodeVal x with
    | error e =>
      obtain ⟨t, ht⟩ := ihNU x (by simp) hsx.1 e hx
      subst ht
      exact ⟨t, by simp [encodeElems, hx]⟩
    | ok a =>
      have hxfalse : hasUnsupported x = false := by
        by_contra hc
        obtain ⟨t, ht⟩ := ihAll x (by simp) (by simpa using hc) hsx.1
        rw [hx] at ht
        exact absurd ht (by simp)
      rw [hasUnsupportedL, hxfalse] at h
      simp at h
      obtain ⟨t, ht⟩ := ih2 (fun z hz => ihAll z (by simp [hz]))
        (fun z hz => ihNU z (by simp [hz])) h hsx.2
      exact ⟨t, by simp [encodeElems, hx, ht]⟩

/-- On mapping pairs free of surrogate strings, an unsupported key or
value somewhere makes the pair loop raise a `KeyError`. -/
theorem encodePairs_unsupported (d : List (PyVal × PyVal))
    (ihAll : ∀ kv ∈ d,
      (hasUnsupported kv.1 = true → hasSurrStr kv.1 = false →
        ∃ t, encodeVal kv.1 = .error (.keyError t)) ∧
      (hasUnsupported kv.2 = true → hasSurrStr kv.2 = false →
        ∃ t, encodeVal kv.2 = .error (.keyError t)))
    (ihNU : ∀ kv ∈ d,
      (hasSurrStr kv.1 = false →
        ∀ e, encodeVal kv.1 = .error e → ∃ t, e = EncErr.keyError t) ∧
      (hasSurrStr kv.2 = false →
        ∀ e, encodeVal kv.2 = .error e → ∃ t, e = EncErr.keyError t))
    (h : hasUnsupportedP d = true) (hs : hasSurrStrP d = false) :
    ∃ t, encodePairs d = .error (.keyError t) := by
  induction d with
  | nil => simp [hasUnsupportedP] at h
  | cons kv rest ih2 =>
    obtain ⟨k, v⟩ := kv
    have hsx : hasSurrStr k = false ∧ hasSurrStr v = false ∧ hasSurrStrP rest = false := by
      rw [hasSurrStrP] at hs
      simpa [and_assoc] using hs
    cases hk : encodeVal k with
    | error e =>
      obtain ⟨t, ht⟩ := (ihNU (k, v) (by simp)).1 hsx.1 e hk
      subst ht
      exact ⟨t, by simp [encodePairs, hk]⟩
    | ok a =>
      have hkfalse : hasUnsupported k = false := by
        by_contra hc
        obtain ⟨t, ht⟩ := (ihAll (k, v) (by simp)).1 (by simpa using hc) hsx.1
        rw [hk] at ht
        exact absurd ht (by simp)
      cases hv : encodeVal v with
      | error e =>
        obtain ⟨t, ht⟩ := (ihNU (k, v) (by simp)).2 hsx.2.1 e hv
        subst ht
        exact ⟨t, by simp [encodePairs, hk, hv]⟩
      | ok b =>
        have hvfalse : hasUnsupported v = false := by
          by_contra hc
          obtain ⟨t, ht⟩ := (ihAll (k, v) (by simp)).2 (by simpa using hc) hsx.2.1
          rw [hv] at ht
          exact absurd ht (by simp)
        rw [hasUnsupportedP, hkfalse, hvfalse] at h
        simp at h
        obtain ⟨t, ht⟩ := ih2 (fun z hz => ihAll z (by simp [hz]))
          (fun z hz => ihNU z (by simp [hz])) h hsx.2.2
        exact ⟨t, by simp [encodePairs, hk, hv, ht]⟩

/-- Any value containing an unsupported component, provided it holds no
surrogate string (whose earlier `UnicodeEncodeError` could preempt the
lookup failure), makes the dispatch raise a `KeyError`. -/
theorem encodeVal_unsupported : ∀ v : PyVal, hasUnsupported v = true →
    hasSurrStr v = false → ∃ t, encodeVal v = .error (.keyError t) := by
  intro v
  induction v using pyvalInduction with
  | hint i => intro h _; simp [hasUnsupported] at h
  | hbool b => intro h _; simp [hasUnsupported] at h
  | hstr s => intro h _; simp [hasUnsupported] at h
  | hbytes b => intro h _; simp [hasUnsupported] at h
  | hunsup t => intro _ _; exact ⟨t, by simp [encodeVal]⟩
  | hlist l ih =>
    intro h hs
    rw [hasUnsupported] at h
    rw [hasSurrStr] at hs
    obtain ⟨t, ht⟩ := encodeElems_unsupported l (fun x hx => ih x hx)
      (fun x hx => encodeVal_not_unicode x) h hs
    exact ⟨t, by simp [encodeVal, ht]⟩
  | htuple l ih =>
    intro h hs
    rw [hasUnsupported] at h
    rw [hasSurrStr] at hs
    obtain ⟨t, ht⟩ := encodeElems_unsupported l (fun x hx => ih x hx)
      (fun x hx => encodeVal_not_unicode x) h hs
    exact ⟨t, by simp [encodeVal, ht]⟩
  | hdict d ih =>
    intro h hs
    rw [hasUnsupported] at h
    rw [hasSurrStr] at hs
    obtain ⟨t, ht⟩ := encodePairs_unsupported d
      (fun kv hkv => ⟨(ih kv hkv).1, (ih kv hkv).2⟩)
      (fun kv _ => ⟨encodeVal_not_unicode kv.1, encodeVal_not_unicode kv.2⟩) h hs
    exact ⟨t, by simp [encodeVal, ht]⟩

end Bencode

/-! ## The claims -/

/-- C1: for every value built from the four supported shapes (byte
string, integer, list, ordered mapping, nested arbitrarily, mapping keys
pairwise distinct as in a Python dict), decoding the encoding returns a
value equal to the original, with mapping keys in the original order —
the encoder emits pairs in insertion order and never sorts them, and the
decoder rebuilds the mapping in decode order. -/
theorem claim_C1_roundtrip (v : Bencode.BValue) (hwf : Bencode.wfB v = true) :
    Bencode.encodeTop (Bencode.toPy v) = .ok (Bencode.encB v) ∧
    Bencode.decodeTop (Bencode.needFuel v) (Bencode.encB v) = .ok v :=
  ⟨by simp [Bencode.encodeTop, Bencode.encodeVal_toPy v], Bencode.decodeTop_encB v hwf⟩

/-- Witness for C1 at a mapping whose keys are deliberately not in
sorted order (`{b"b": 1, b"a": b"x"}`), so the round trip exhibits
order preservation. -/
theorem claim_C1_witness :
    Bencode.wfB (.dict [([98], .int 1), ([97], .str [120])]) = true ∧
    (Bencode.encodeTop (Bencode.toPy (.dict [([98], .int 1), ([97], .str [120])])) =
      .ok (Bencode.encB (.dict [([98], .int 1), ([97], .str [120])])) ∧
    Bencode.decodeTop (Bencode.needFuel (.dict [([98], .int 1), ([97], .str [120])]))
      (Bencode.encB (.dict [([98], .int 1), ([97], .str [120])])) =
      .ok (.dict [([98], .int 1), ([97], .str [120])])) :=
  ⟨by decide, claim_C1_roundtrip (.dict [([98], .int 1), ([97], .str [120])]) (by decide)⟩

/-- C2: the spec example byte `0b10100000` does expand to
`[true, false, true, false, false, false, false, false]`, but the
universal bit-order claim fails: `bin(byte).lstrip('0b')` is not
zero-padded (and `lstrip` also eats leading zero bits), so the single
byte `0b01000000` yields only seven booleans whose first element is
`true`, where the claimed semantics (`specPiecesStatus`, modelled from
the spec) requires eight booleans starting `false, true`. -/
theorem claim_C2_pieces_status :
    Messages.piecesStatus [160] = [true, false, true, false, false, false, false, false] ∧
    Messages.piecesStatus [64] = [true, false, false, false, false, false, false] ∧
    Messages.specPiecesStatus [64] = [false, true, false, false, false, false, false, false] ∧
    Messages.piecesStatus [64] ≠ Messages.specPiecesStatus [64] ∧
    Messages.piecesStatus [0] = [] := by decide

/-- C4: decode does not confine itself to the typed bencode error: an
unknown leading byte such as `b"x"` or `b"e"` escapes as a raw Python
`KeyError` from the dispatch-table lookup (also nested, e.g. inside
`b"lxe"`), and the empty buffer raises `TypeError` from the
constructor. -/
theorem claim_C4_error_kinds :
    Bencode.decodeTop 9 [120] = .error (.keyError 120) ∧
    Bencode.decodeTop 9 [101] = .error (.keyError 101) ∧
    Bencode.decodeTop 9 [108, 120, 101] = .error (.keyError 120) ∧
    Bencode.decodeTop 9 [] = .error .typeError := by decide

/-- C5: a canonical length prefix decodes exactly the declared bytes,
and `b"3:ab"` (declared length exceeding the buffer) fails; but the
substring before the colon is parsed by Python's `int()`, which also
accepts surrounding whitespace and a leading sign, so `b"1 :a"` decodes
to `b"a"` and a plus-signed key length (`b"d+1:ai2ee"`) is accepted,
refuting the claim that such content is an error. -/
theorem claim_C5_str_length :
    (∀ s : List Nat, Bencode.decodeTop 1 (Bencode.natToDigits s.length ++ 58 :: s) =
      .ok (.str s)) ∧
    Bencode.decodeTop 2 [49, 32, 58, 97] = .ok (.str [97]) ∧
    Bencode.decodeTop 9 [100, 43, 49, 58, 97, 105, 50, 101, 101] =
      .ok (.dict [([97], .int 2)]) ∧
    Bencode.decodeTop 9 [51, 58, 97, 98] =
      .error (.bencode "The number of decoded bytes does not match the number of total bytes") := by
  refine ⟨fun s => ?_, by decide, by decide, by decide⟩
  simpa [Bencode.needFuel, Bencode.encB] using
    Bencode.decodeTop_encB (.str s) (by simp [Bencode.wfB])

/-- C6: canonical integer spans decode to their value; the empty span,
`b"i03e"` and `b"i-0e"` are rejected with the bencode error; but the
span is parsed by Python's `int()`, so `b"i+1e"`, `b"i 1e"` and
`b"i1_0e"` are all accepted, refuting the claim that any non-digit
other than a single leading minus is rejected. -/
theorem claim_C6_int_span :
    (∀ i : Int, Bencode.decodeTop 1 (105 :: Bencode.intEnc i ++ [101]) = .ok (.int i)) ∧
    Bencode.decodeTop 1 [105, 101] =
      .error (.bencode "Could not coerce the byte string to an integer") ∧
    Bencode.decodeTop 1 [105, 48, 51, 101] =
      .error (.bencode "Integers may not be represented with leading 0s") ∧
    Bencode.decodeTop 1 [105, 45, 48, 101] =
      .error (.bencode "Integers may not be represented with leading 0s") ∧
    Bencode.decodeTop 1 [105, 43, 49, 101] = .ok (.int 1) ∧
    Bencode.decodeTop 1 [105, 32, 49, 101] = .ok (.int 1) ∧
    Bencode.decodeTop 1 [105, 49, 95, 48, 101] = .ok (.int 10) := by
  refine ⟨fun i => ?_, by decide, by decide, by decide, by decide, by decide, by decide⟩
  simpa [Bencode.needFuel, Bencode.encB] using
    Bencode.decodeTop_encB (.int i) (by simp [Bencode.wfB])

namespace Messages

theorem beBytes_length : ∀ w v, (beBytes w v).length = w := by
  intro w
  induction w with
  | zero => intro v; rfl
  | succ n ih => intro v; simp [beBytes, ih]

theorem packU_ok (w : Nat) (v : Int) (h1 : 0 ≤ v) (h2 : v < (2 : Int) ^ (8 * w)) :
    packU w v = .ok (beBytes w v.toNat) := by
  rw [packU, if_pos ⟨h1, h2⟩]

theorem packS_length (n : Nat) (b : List Nat) : (packS n b).length = n := by
  simp [packS]
  omega

theorem packS_exact (n : Nat) (b : List Nat) (h : b.length = n) : packS n b = b := by
  subst h
  simp [packS]

end Messages

/-- C3 counterexample: `Port(70000)` is accepted by the constructor (its
range guard is unreachable because of the `and`), yet `to_bytes` raises
`struct.error` since 70000 does not fit the 2-byte `H` field.  A
validly-constructed instance on which `to_bytes` fails refutes the
claim as stated. -/
theorem claim_C3_counterexample :
    Messages.portInit 70000 = .ok ⟨3, 9, 70000⟩ ∧
    Messages.portToBytes ⟨3, 9, 70000⟩ = .error .structError := by decide

/-- C3 amended: `to_bytes` is a pure function of the instance (hence
deterministic) and never fails when every numeric field fits its struct
format (4-byte fields in `[0, 2^32)`, the port in `[0, 2^16)`, and
variable payloads small enough to keep `msg_len` below `2^32`); the
constructors do not enforce those ranges, so constructedness alone is
not sufficient. -/
theorem claim_C3_to_bytes_total :
    Messages.keepAliveToBytes Messages.keepAliveInit = .ok [0, 0, 0, 0] ∧
    Messages.chokeToBytes Messages.chokeInit = .ok [0, 0, 0, 1, 0] ∧
    Messages.unchokeToBytes Messages.unchokeInit = .ok [0, 0, 0, 1, 1] ∧
    Messages.interestedToBytes Messages.interestedInit = .ok [0, 0, 0, 1, 2] ∧
    Messages.notInterestedToBytes Messages.notInterestedInit = .ok [0, 0, 0, 1, 3] ∧
    (∀ pi : Int, 0 ≤ pi → pi < 2 ^ 32 →
      ∃ bs, Messages.haveToBytes (Messages.haveInit pi) = .ok bs ∧ bs.length = 9) ∧
    (∀ bf : List Nat, (bf.length : Int) + 1 < 2 ^ 32 →
      ∃ bs, Messages.bitfieldToBytes (Messages.bitfieldInit bf) = .ok bs ∧
        bs.length = 5 + bf.length) ∧
    (∀ i b l : Int, 0 ≤ i → i < 2 ^ 32 → 0 ≤ b → b < 2 ^ 32 → 0 ≤ l → l < 2 ^ 32 →
      ∃ bs, Messages.requestToBytes (Messages.requestInit i b l) = .ok bs ∧
        bs.length = 17) ∧
    (∀ i b : Int, ∀ blk : List Nat, 0 ≤ i → i < 2 ^ 32 → 0 ≤ b → b < 2 ^ 32 →
      (blk.length : Int) + 9 < 2 ^ 32 →
      ∃ bs, Messages.pieceToBytes (Messages.pieceInit i b blk) = .ok bs ∧
        bs.length = 13 + blk.length) ∧
    (∀ i b l : Int, 0 ≤ i → i < 2 ^ 32 → 0 ≤ b → b < 2 ^ 32 → 0 ≤ l → l < 2 ^ 32 →
      ∃ bs, Messages.cancelToBytes (Messages.cancelInit i b l) = .ok bs ∧
        bs.length = 17) ∧
    (∀ pt : Int, 0 ≤ pt → pt < 2 ^ 16 →
      ∃ m bs, Messages.portInit pt = .ok m ∧ Messages.portToBytes m = .ok bs ∧
        bs.length = 7) ∧
    (∀ ih pid : List Nat, ih.length = 20 → pid.length = 20 →
      ∃ hs bs, Messages.handshakeInit ih pid = .ok hs ∧
        Messages.handshakeToBytes hs = .ok bs ∧ bs.length = 68) := by
  refine ⟨by decide, by decide, by decide, by decide, by decide, ?_, ?_, ?_, ?_, ?_, ?_, ?_⟩
  · intro pi h1 h2
    refine ⟨[0, 0, 0, 5] ++ [4] ++ Messages.beBytes 4 pi.toNat, ?_, ?_⟩
    · simp [Messages.haveToBytes, Messages.haveInit,
        Messages.packU_ok 4 pi h1 h2,
        (show Messages.packU 4 (5 : Int) = .ok [0, 0, 0, 5] by decide),
        (show Messages.packU 1 (4 : Int) = .ok [4] by decide)]
    · simp [Messages.beBytes_length]
  · intro bf h
    refine ⟨Messages.beBytes 4 (1 + (bf.length : Int)).toNat ++ [5] ++ bf, ?_, ?_⟩
    · rw [Messages.bitfieldToBytes,
        show (Messages.bitfieldInit bf).msg_len = 1 + (bf.length : Int) from rfl,
        Messages.packU_ok 4 (1 + (bf.length : Int)) (by omega) (by omega),
        show (Messages.bitfieldInit bf).msg_id = (5 : Int) from rfl,
        show Messages.packU 1 (5 : Int) = .ok [5] from by decide,
        show (Messages.bitfieldInit bf).bitfield = bf from rfl,
        Messages.packS_exact bf.length bf rfl]
    · simp [Messages.beBytes_length]
      omega
  · intro i b l hi1 hi2 hb1 hb2 hl1 hl2
    refine ⟨[0, 0, 0, 13] ++ [6] ++ Messages.beBytes 4 i.toNat ++ Messages.beBytes 4 b.toNat ++
      Messages.beBytes 4 l.toNat, ?_, ?_⟩
    · simp [Messages.requestToBytes, Messages.requestInit,
        Messages.packU_ok 4 i hi1 hi2, Messages.packU_ok 4 b hb1 hb2,
        Messages.packU_ok 4 l hl1 hl2,
        (show Messages.packU 4 (13 : Int) = .ok [0, 0, 0, 13] by decide),
        (show Messages.packU 1 (6 : Int) = .ok [6] by decide)]
    · simp [Messages.beBytes_length]
  · intro i b blk hi1 hi2 hb1 hb2 hblk
    refine ⟨Messages.beBytes 4 (9 + (blk.length : Int)).toNat ++ [7] ++
      Messages.beBytes 4 i.toNat ++ Messages.beBytes 4 b.toNat ++ blk, ?_, ?_⟩
    · rw [Messages.pieceToBytes,
        show (Messages.pieceInit i b blk).msg_len = 9 + (blk.length : Int) from rfl,
        Messages.packU_ok 4 (9 + (blk.length : Int)) (by omega) (by omega),
        show (Messages.pieceInit i b blk).msg_id = (7 : Int) from rfl,
        show Messages.packU 1 (7 : Int) = .ok [7] from by decide,
        show (Messages.pieceInit i b blk).index = i from rfl,
        Messages.packU_ok 4 i hi1 hi2,
        show (Messages.pieceInit i b blk).begin = b from rfl,
        Messages.packU_ok 4 b hb1 hb2,
        show (Messages.pieceInit i b blk).block = blk from rfl,
        Messages.packS_exact blk.length blk rfl]
    · simp [Messages.beBytes_length]
      omega
  · intro i b l hi1 hi2 hb1 hb2 hl1 hl2
    refine ⟨[0, 0, 0, 13] ++ [8] ++ Messages.beBytes 4 i.toNat ++ Messages.beBytes 4 b.toNat ++
      Messages.beBytes 4 l.toNat, ?_, ?_⟩
    · simp [Messages.cancelToBytes, Messages.cancelInit,
        Messages.packU_ok 4 i hi1 hi2, Messages.packU_ok 4 b hb1 hb2,
        Messages.packU_ok 4 l hl1 hl2,
        (show Messages.packU 4 (13 : Int) = .ok [0, 0, 0, 13] by decide),
        (show Messages.packU 1 (8 : Int) = .ok [8] by decide)]
    · simp [Messages.beBytes_length]
  · intro pt h1 h2
    refine ⟨⟨3, 9, pt⟩, [0, 0, 0, 3] ++ [9] ++ Messages.beBytes 2 pt.toNat, ?_, ?_, ?_⟩
    · simp [Messages.portInit]
    · simp [Messages.portToBytes, Messages.packU_ok 2 pt h1 h2,
        (show Messages.packU 4 (3 : Int) = .ok [0, 0, 0, 3] by decide),
        (show Messages.packU 1 (9 : Int) = .ok [9] by decide)]
    · simp [Messages.beBytes_length]
  · intro ih pid h1 h2
    refine ⟨⟨68, 19, Messages.BITTORRENT_PSTR_V1, List.replicate 8 0, ih, pid⟩,
      [19] ++ Messages.BITTORRENT_PSTR_V1 ++ List.replicate 8 0 ++ ih ++ pid, ?_, ?_, ?_⟩
    · rw [Messages.handshakeInit, if_neg (by omega), if_neg (by omega)]
    · simp [Messages.handshakeToBytes,
        (show Messages.packU 1 (19 : Int) = .ok [19] by decide),
        (show Messages.packS 19 Messages.BITTORRENT_PSTR_V1 = Messages.BITTORRENT_PSTR_V1 from
          Messages.packS_exact 19 _ (by decide)),
        (show Messages.packS 8 [0, 0, 0, 0, 0, 0, 0, 0] = [0, 0, 0, 0, 0, 0, 0, 0] from
          Messages.packS_exact 8 _ (by decide)),
        Messages.packS_exact 20 ih h1, Messages.packS_exact 20 pid h2]
    · simp [h1, h2]
      decide

/-- Witness for C3 at concrete in-range instances of every variant with
hypotheses. -/
theorem claim_C3_witness :
    (∃ bs, Messages.haveToBytes (Messages.haveInit 7) = .ok bs ∧ bs.length = 9) ∧
    (∃ bs, Messages.bitfieldToBytes (Messages.bitfieldInit [255, 1]) = .ok bs ∧
      bs.length = 7) ∧
    (∃ bs, Messages.requestToBytes (Messages.requestInit 0 0 520) = .ok bs ∧
      bs.length = 17) ∧
    (∃ bs, Messages.pieceToBytes (Messages.pieceInit 0 0 [9]) = .ok bs ∧ bs.length = 14) ∧
    (∃ bs, Messages.cancelToBytes (Messages.cancelInit 0 0 520) = .ok bs ∧
      bs.length = 17) ∧
    (∃ m bs, Messages.portInit 50000 = .ok m ∧ Messages.portToBytes m = .ok bs ∧
      bs.length = 7) ∧
    (∃ hs bs, Messages.handshakeInit (List.replicate 20 1) (List.replicate 20 2) = .ok hs ∧
      Messages.handshakeToBytes hs = .ok bs ∧ bs.length = 68) :=
  ⟨claim_C3_to_bytes_total.2.2.2.2.2.1 7 (by decide) (by decide),
   claim_C3_to_bytes_total.2.2.2.2.2.2.1 [255, 1] (by decide),
   claim_C3_to_bytes_total.2.2.2.2.2.2.2.1 0 0 520 (by decide) (by decide) (by decide)
     (by decide) (by decide) (by decide),
   claim_C3_to_bytes_total.2.2.2.2.2.2.2.2.1 0 0 [9] (by decide) (by decide) (by decide)
     (by decide) (by decide),
   claim_C3_to_bytes_total.2.2.2.2.2.2.2.2.2.1 0 0 520 (by decide) (by decide) (by decide)
     (by decide) (by decide) (by decide),
   claim_C3_to_bytes_total.2.2.2.2.2.2.2.2.2.2.1 50000 (by decide) (by decide),
   claim_C3_to_bytes_total.2.2.2.2.2.2.2.2.2.2.2 (List.replicate 20 1) (List.replicate 20 2)
     (by decide) (by decide)⟩

/-- C7: the dispatcher rejects payloads shorter than 4 bytes, classifies
any 4-byte payload as keep-alive, parses payloads starting with byte 19
as a handshake, otherwise delegates on the 5th byte to the variant with
that identifier (0..9), errors on any identifier outside the table, and
a serialized `Choke` round-trips to an equal `Choke`. -/
theorem claim_C7_dispatcher :
    (∀ p : List Nat, p.length < 4 → Messages.decodeMessage p =
      .error (.invalidMessageStructure "Valid messages must be at least 4 bytes in length.")) ∧
    (∀ p : List Nat, p.length = 4 →
      Messages.decodeMessage p = .ok (.keepAlive Messages.keepAliveInit)) ∧
    (∀ p : List Nat, 4 < p.length → p.getD 0 0 = 19 →
      Messages.decodeMessage p = (Messages.handshakeFromBytes p).map .handshake) ∧
    (∀ p : List Nat, 4 < p.length → p.getD 0 0 ≠ 19 → p.getD 4 0 = 0 →
      Messages.decodeMessage p = (Messages.chokeFromBytes p).map .choke) ∧
    (∀ p : List Nat, 4 < p.length → p.getD 0 0 ≠ 19 → p.getD 4 0 = 1 →
      Messages.decodeMessage p = (Messages.unchokeFromBytes p).map .unchoke) ∧
    (∀ p : List Nat, 4 < p.length → p.getD 0 0 ≠ 19 → p.getD 4 0 = 2 →
      Messages.decodeMessage p = (Messages.interestedFromBytes p).map .interested) ∧
    (∀ p : List Nat, 4 < p.length → p.getD 0 0 ≠ 19 → p.getD 4 0 = 3 →
      Messages.decodeMessage p = (Messages.notInterestedFromBytes p).map .notInterested) ∧
    (∀ p : List Nat, 4 < p.length → p.getD 0 0 ≠ 19 → p.getD 4 0 = 4 →
      Messages.decodeMessage p = (Messages.haveFromBytes p).map .haveMsg) ∧
    (∀ p : List Nat, 4 < p.length → p.getD 0 0 ≠ 19 → p.getD 4 0 = 5 →
      Messages.decodeMessage p = (Messages.bitfieldFromBytes p).map .bitfield) ∧
    (∀ p : List Nat, 4 < p.length → p.getD 0 0 ≠ 19 → p.getD 4 0 = 6 →
      Messages.decodeMessage p = (Messages.requestFromBytes p).map .request) ∧
    (∀ p : List Nat, 4 < p.length → p.getD 0 0 ≠ 19 → p.getD 4 0 = 7 →
      Messages.decodeMessage p = (Messages.pieceFromBytes p).map .piece) ∧
    (∀ p : List Nat, 4 < p.length → p.getD 0 0 ≠ 19 → p.getD 4 0 = 8 →
      Messages.decodeMessage p = (Messages.cancelFromBytes p).map .cancel) ∧
    (∀ p : List Nat, 4 < p.length → p.getD 0 0 ≠ 19 → p.getD 4 0 = 9 →
      Messages.decodeMessage p = (Messages.portFromBytes p).map .port) ∧
    (∀ p : List Nat, 4 < p.length → p.getD 0 0 ≠ 19 → 9 < p.getD 4 0 →
      Messages.decodeMessage p = .error (.invalidMessageStructure "Unknown message ID.")) ∧
    (Messages.chokeToBytes Messages.chokeInit = .ok [0, 0, 0, 1, 0] ∧
      Messages.decodeMessage [0, 0, 0, 1, 0] = .ok (.choke Messages.chokeInit)) := by
  refine ⟨?_, ?_, ?_, ?_, ?_, ?_, ?_, ?_, ?_, ?_, ?_, ?_, ?_, ?_, by decide⟩
  · intro p h
    rw [Messages.decodeMessage, if_pos h]
  · intro p h
    rw [Messages.decodeMessage, if_neg (by omega), if_pos h]
  · intro p h4 h19
    rw [Messages.decodeMessage, if_neg (by omega), if_neg (by omega), if_pos h19]
  all_goals
    intro p h4 h19 hk
    simp only [List.getD_eq_getElem?_getD] at h19 hk
  case refine_14 =>
    simp [Messages.decodeMessage, (show ¬(p.length < 4) by omega),
      (show ¬(p.length = 4) by omega), h19,
      (show ¬(p[4]?.getD 0 = 0) by omega), (show ¬(p[4]?.getD 0 = 1) by omega),
      (show ¬(p[4]?.getD 0 = 2) by omega), (show ¬(p[4]?.getD 0 = 3) by omega),
      (show ¬(p[4]?.getD 0 = 4) by omega), (show ¬(p[4]?.getD 0 = 5) by omega),
      (show ¬(p[4]?.getD 0 = 6) by omega), (show ¬(p[4]?.getD 0 = 7) by omega),
      (show ¬(p[4]?.getD 0 = 8) by omega), (show ¬(p[4]?.getD 0 = 9) by omega)]
  all_goals
    simp [Messages.decodeMessage, (show ¬(p.length < 4) by omega),
      (show ¬(p.length = 4) by omega), h19, hk]

/-- Witness for C7 at concrete payloads for every hypothesis-bearing
branch of the dispatcher contract. -/
theorem claim_C7_witness :
    Messages.decodeMessage [7, 7] =
      .error (.invalidMessageStructure "Valid messages must be at least 4 bytes in length.") ∧
    Messages.decodeMessage [7, 7, 7, 7] = .ok (.keepAlive Messages.keepAliveInit) ∧
    Messages.decodeMessage [19, 0, 0, 0, 0] =
      (Messages.handshakeFromBytes [19, 0, 0, 0, 0]).map .handshake ∧
    Messages.decodeMessage [0, 0, 0, 1, 0] =
      (Messages.chokeFromBytes [0, 0, 0, 1, 0]).map .choke ∧
    Messages.decodeMessage [0, 0, 0, 1, 1] =
      (Messages.unchokeFromBytes [0, 0, 0, 1, 1]).map .unchoke ∧
    Messages.decodeMessage [0, 0, 0, 1, 2] =
      (Messages.interestedFromBytes [0, 0, 0, 1, 2]).map .interested ∧
    Messages.decodeMessage [0, 0, 0, 1, 3] =
      (Messages.notInterestedFromBytes [0, 0, 0, 1, 3]).map .notInterested ∧
    Messages.decodeMessage [0, 0, 0, 1, 4] =
      (Messages.haveFromBytes [0, 0, 0, 1, 4]).map .haveMsg ∧
    Messages.decodeMessage [0, 0, 0, 1, 5] =
      (Messages.bitfieldFromBytes [0, 0, 0, 1, 5]).map .bitfield ∧
    Messages.decodeMessage [0, 0, 0, 1, 6] =
      (Messages.requestFromBytes [0, 0, 0, 1, 6]).map .request ∧
    Messages.decodeMessage [0, 0, 0, 1, 7] =
      (Messages.pieceFromBytes [0, 0, 0, 1, 7]).map .piece ∧
    Messages.decodeMessage [0, 0, 0, 1, 8] =
      (Messages.cancelFromBytes [0, 0, 0, 1, 8]).map .cancel ∧
    Messages.decodeMessage [0, 0, 0, 1, 9] =
      (Messages.portFromBytes [0, 0, 0, 1, 9]).map .port ∧
    Messages.decodeMessage [0, 0, 0, 1, 77] =
      .error (.invalidMessageStructure "Unknown message ID.") :=
  ⟨claim_C7_dispatcher.1 [7, 7] (by decide),
   claim_C7_dispatcher.2.1 [7, 7, 7, 7] (by decide),
   claim_C7_dispatcher.2.2.1 [19, 0, 0, 0, 0] (by decide) (by decide),
   claim_C7_dispatcher.2.2.2.1 [0, 0, 0, 1, 0] (by decide) (by decide) (by decide),
   claim_C7_dispatcher.2.2.2.2.1 [0, 0, 0, 1, 1] (by decide) (by decide) (by decide),
   claim_C7_dispatcher.2.2.2.2.2.1 [0, 0, 0, 1, 2] (by decide) (by decide) (by decide),
   claim_C7_dispatcher.2.2.2.2.2.2.1 [0, 0, 0, 1, 3] (by decide) (by decide) (by decide),
   claim_C7_dispatcher.2.2.2.2.2.2.2.1 [0, 0, 0, 1, 4] (by decide) (by decide) (by decide),
   claim_C7_dispatcher.2.2.2.2.2.2.2.2.1 [0, 0, 0, 1, 5] (by decide) (by decide) (by decide),
   claim_C7_dispatcher.2.2.2.2.2.2.2.2.2.1 [0, 0, 0, 1, 6] (by decide) (by decide) (by decide),
   claim_C7_dispatcher.2.2.2.2.2.2.2.2.2.2.1 [0, 0, 0, 1, 7] (by decide) (by decide)
     (by decide),
   claim_C7_dispatcher.2.2.2.2.2.2.2.2.2.2.2.1 [0, 0, 0, 1, 8] (by decide) (by decide)
     (by decide),
   claim_C7_dispatcher.2.2.2.2.2.2.2.2.2.2.2.2.1 [0, 0, 0, 1, 9] (by decide) (by decide)
     (by decide),
   claim_C7_dispatcher.2.2.2.2.2.2.2.2.2.2.2.2.2.1 [0, 0, 0, 1, 77] (by decide) (by decide)
     (by decide)⟩

/-- C8: handshake construction fails unless both `info_hash` and
`peer_id` are exactly 20 bytes; decoding fails unless the payload is
exactly 68 bytes; and for any 20-byte inputs, serialization produces
exactly 68 bytes which reparse to an equal handshake object. -/
theorem claim_C8_handshake :
    (∀ ih pid : List Nat, ih.length ≠ 20 → Messages.handshakeInit ih pid =
      .error (.valueError "The info hash must be 20 bytes long.")) ∧
    (∀ ih pid : List Nat, ih.length = 20 → pid.length ≠ 20 → Messages.handshakeInit ih pid =
      .error (.valueError "The peer ID must be 20 bytes long.")) ∧
    (∀ p : List Nat, p.length ≠ 68 → Messages.handshakeFromBytes p =
      .error (.valueError "Expected a byte string of length 68.")) ∧
    (∀ ih pid : List Nat, ih.length = 20 → pid.length = 20 →
      Messages.handshakeInit ih pid =
        .ok ⟨68, 19, Messages.BITTORRENT_PSTR_V1, List.replicate 8 0, ih, pid⟩ ∧
      Messages.handshakeToBytes
          ⟨68, 19, Messages.BITTORRENT_PSTR_V1, List.replicate 8 0, ih, pid⟩ =
        .ok ([19] ++ Messages.BITTORRENT_PSTR_V1 ++ List.replicate 8 0 ++ ih ++ pid) ∧
      ([19] ++ Messages.BITTORRENT_PSTR_V1 ++ List.replicate 8 0 ++ ih ++ pid).length = 68 ∧
      Messages.handshakeFromBytes
          ([19] ++ Messages.BITTORRENT_PSTR_V1 ++ List.replicate 8 0 ++ ih ++ pid) =
        .ok ⟨68, 19, Messages.BITTORRENT_PSTR_V1, List.replicate 8 0, ih, pid⟩) := by
  refine ⟨?_, ?_, ?_, ?_⟩
  · intro ih pid h
    rw [Messages.handshakeInit, if_pos h]
  · intro ih pid h1 h2
    rw [Messages.handshakeInit, if_neg (by omega), if_pos h2]
  · intro p h
    rw [Messages.handshakeFromBytes, if_pos h]
  · intro ih pid h1 h2
    have hinit : Messages.handshakeInit ih pid =
        .ok ⟨68, 19, Messages.BITTORRENT_PSTR_V1, List.replicate 8 0, ih, pid⟩ := by
      rw [Messages.handshakeInit, if_neg (by omega), if_neg (by omega)]
    have hlen : ([19] ++ Messages.BITTORRENT_PSTR_V1 ++ List.replicate 8 0 ++ ih ++
        pid).length = 68 := by
      simp [h1, h2]
      decide
    refine ⟨hinit, ?_, hlen, ?_⟩
    · simp [Messages.handshakeToBytes,
        (show Messages.packU 1 (19 : Int) = .ok [19] by decide),
        (show Messages.packS 19 Messages.BITTORRENT_PSTR_V1 = Messages.BITTORRENT_PSTR_V1 from
          Messages.packS_exact 19 _ (by decide)),
        (show Messages.packS 8 [0, 0, 0, 0, 0, 0, 0, 0] = [0, 0, 0, 0, 0, 0, 0, 0] from
          Messages.packS_exact 8 _ (by decide)),
        Messages.packS_exact 20 ih h1, Messages.packS_exact 20 pid h2]
    · rw [Messages.handshakeFromBytes, if_neg (by omega)]
      have hih : Messages.sliceN
          ([19] ++ Messages.BITTORRENT_PSTR_V1 ++ List.replicate 8 0 ++ ih ++ pid) 28 20 =
          ih := by
        rw [Messages.sliceN,
          show [19] ++ Messages.BITTORRENT_PSTR_V1 ++ List.replicate 8 0 ++ ih ++ pid =
            ([19] ++ Messages.BITTORRENT_PSTR_V1 ++ List.replicate 8 0) ++ (ih ++ pid) by
              simp,
          List.drop_left' (by decide), List.take_left' h1]
      have hpid : Messages.sliceN
          ([19] ++ Messages.BITTORRENT_PSTR_V1 ++ List.replicate 8 0 ++ ih ++ pid) 48 20 =
          pid := by
        rw [Messages.sliceN,
          show [19] ++ Messages.BITTORRENT_PSTR_V1 ++ List.replicate 8 0 ++ ih ++ pid =
            (([19] ++ Messages.BITTORRENT_PSTR_V1 ++ List.replicate 8 0) ++ ih) ++ pid by
              simp,
          List.drop_left' (by simp [h1]; decide), List.take_of_length_le (by omega)]
      rw [hih, hpid, hinit]

/-- Witness for C8 at concrete 20-byte inputs and a wrong-length
payload. -/
theorem claim_C8_witness :
    (Messages.handshakeInit [1] (List.replicate 20 2) =
      .error (.valueError "The info hash must be 20 bytes long.")) ∧
    (Messages.handshakeInit (List.replicate 20 1) [2] =
      .error (.valueError "The peer ID must be 20 bytes long.")) ∧
    (Messages.handshakeFromBytes [1, 2, 3] =
      .error (.valueError "Expected a byte string of length 68.")) ∧
    (Messages.handshakeInit (List.replicate 20 1) (List.replicate 20 2) =
        .ok ⟨68, 19, Messages.BITTORRENT_PSTR_V1, List.replicate 8 0, List.replicate 20 1,
          List.replicate 20 2⟩ ∧
      Messages.handshakeToBytes ⟨68, 19, Messages.BITTORRENT_PSTR_V1, List.replicate 8 0,
          List.replicate 20 1, List.replicate 20 2⟩ =
        .ok ([19] ++ Messages.BITTORRENT_PSTR_V1 ++ List.replicate 8 0 ++
          List.replicate 20 1 ++ List.replicate 20 2) ∧
      ([19] ++ Messages.BITTORRENT_PSTR_V1 ++ List.replicate 8 0 ++ List.replicate 20 1 ++
        List.replicate 20 2).length = 68 ∧
      Messages.handshakeFromBytes ([19] ++ Messages.BITTORRENT_PSTR_V1 ++
          List.replicate 8 0 ++ List.replicate 20 1 ++ List.replicate 20 2) =
        .ok ⟨68, 19, Messages.BITTORRENT_PSTR_V1, List.replicate 8 0, List.replicate 20 1,
          List.replicate 20 2⟩) :=
  ⟨claim_C8_handshake.1 [1] (List.replicate 20 2) (by decide),
   claim_C8_handshake.2.1 (List.replicate 20 1) [2] (by decide) (by decide),
   claim_C8_handshake.2.2.1 [1, 2, 3] (by decide),
   claim_C8_handshake.2.2.2 (List.replicate 20 1) (List.replicate 20 2) (by decide)
     (by decide)⟩

/-- C9 counterexample: the list `["\ud800", 3.14]` contains a
float-typed element, so the claim requires the unsupported-type error;
but the surrogate string is encoded first, `s.encode()` raises
`UnicodeEncodeError`, and the `except` clauses (`UnicodeDecodeError`,
`KeyError`) let it escape uncaught, so `encode` does not fail with
`InvalidBencodeDataType`. -/
theorem claim_C9_counterexample :
    Bencode.hasUnsupported (.list [.str [55296], .unsupported "float"]) = true ∧
    Bencode.encodeTop (.list [.str [55296], .unsupported "float"]) =
      .error .uncaughtUnicodeEncodeError := by decide

/-- C9 amended: every input whose runtime shape, at any depth, falls
outside the four value kinds and the scalar aliases makes `encode` fail
with `InvalidBencodeDataType` (the `KeyError` from the type-dispatch
table is converted at the top level), provided the input holds no
lone-surrogate str, whose `UnicodeEncodeError` would instead escape the
`except UnicodeDecodeError` clause uncaught; and a boolean encodes as
the bencoded integer `i1e` / `i0e`. -/
theorem claim_C9_unsupported :
    (∀ v : Bencode.PyVal, Bencode.hasUnsupported v = true → Bencode.hasSurrStr v = false →
      ∃ t, Bencode.encodeTop v = .error (.invalidBencodeDataType t)) ∧
    Bencode.encodeTop (.bool true) = .ok [105, 49, 101] ∧
    Bencode.encodeTop (.bool false) = .ok [105, 48, 101] := by
  refine ⟨fun v hv hs => ?_, by decide, by decide⟩
  obtain ⟨t, ht⟩ := Bencode.encodeVal_unsupported v hv hs
  exact ⟨t, by simp [Bencode.encodeTop, ht]⟩

/-- Witness for C9: a surrogate-free list holding a float-typed element
is rejected with the unsupported-type error. -/
theorem claim_C9_witness :
    Bencode.hasUnsupported (.list [.int 3, .unsupported "float"]) = true ∧
    Bencode.hasSurrStr (.list [.int 3, .unsupported "float"]) = false ∧
    (∃ t, Bencode.encodeTop (.list [.int 3, .unsupported "float"]) =
      .error (.invalidBencodeDataType t)) :=
  ⟨by decide, by decide,
   claim_C9_unsupported.1 (.list [.int 3, .unsupported "float"]) (by decide) (by decide)⟩

/-- C10: for every fixed-size ID-tagged variant, `from_bytes` checks
only the total payload length; the 4-byte length prefix and the
identifier byte are never inspected, and the fields are read purely from
their fixed offsets — in particular any 5-byte buffer at all parses as
the canonical `Choke` with `msg_len` 1 and `msg_id` 0. -/
theorem claim_C10_fixed_from_bytes :
    (∀ p : List Nat, p.length = 5 → Messages.chokeFromBytes p = .ok ⟨1, 0⟩) ∧
    (∀ p : List Nat, p.length = 5 → Messages.unchokeFromBytes p = .ok ⟨1, 1⟩) ∧
    (∀ p : List Nat, p.length = 5 → Messages.interestedFromBytes p = .ok ⟨1, 2⟩) ∧
    (∀ p : List Nat, p.length = 5 → Messages.notInterestedFromBytes p = .ok ⟨1, 3⟩) ∧
    (∀ p : List Nat, p.length = 9 → Messages.haveFromBytes p =
      .ok ⟨5, 4, (Messages.beVal (Messages.sliceN p 5 4) : Int)⟩) ∧
    (∀ p : List Nat, p.length = 17 → Messages.requestFromBytes p =
      .ok ⟨13, 6, (Messages.beVal (Messages.sliceN p 5 4) : Int),
        (Messages.beVal (Messages.sliceN p 9 4) : Int),
        (Messages.beVal (Messages.sliceN p 13 4) : Int)⟩) ∧
    (∀ p : List Nat, p.length = 17 → Messages.cancelFromBytes p =
      .ok ⟨13, 8, (Messages.beVal (Messages.sliceN p 5 4) : Int),
        (Messages.beVal (Messages.sliceN p 9 4) : Int),
        (Messages.beVal (Messages.sliceN p 13 4) : Int)⟩) ∧
    (∀ p : List Nat, p.length = 7 → Messages.portFromBytes p =
      .ok ⟨3, 9, (Messages.beVal (Messages.sliceN p 5 2) : Int)⟩) ∧
    Messages.chokeFromBytes [255, 255, 255, 255, 255] = .ok ⟨1, 0⟩ := by
  refine ⟨?_, ?_, ?_, ?_, ?_, ?_, ?_, ?_, by decide⟩
  · intro p h
    rw [Messages.chokeFromBytes, if_neg (by omega)]
    rfl
  · intro p h
    rw [Messages.unchokeFromBytes, if_neg (by omega)]
    rfl
  · intro p h
    rw [Messages.interestedFromBytes, if_neg (by omega)]
    rfl
  · intro p h
    rw [Messages.notInterestedFromBytes, if_neg (by omega)]
    rfl
  · intro p h
    rw [Messages.haveFromBytes, if_neg (by omega)]
    rfl
  · intro p h
    rw [Messages.requestFromBytes, if_neg (by omega)]
    rfl
  · intro p h
    rw [Messages.cancelFromBytes, if_neg (by omega)]
    rfl
  · intro p h
    rw [Messages.portFromBytes, if_neg (by omega)]
    rfl

/-- Witness for C10 at arbitrary-content buffers of the right sizes
(including nonsense length prefixes and identifier bytes). -/
theorem claim_C10_witness :
    Messages.chokeFromBytes [9, 9, 9, 9, 9] = .ok ⟨1, 0⟩ ∧
    Messages.unchokeFromBytes [9, 9, 9, 9, 9] = .ok ⟨1, 1⟩ ∧
    Messages.interestedFromBytes [9, 9, 9, 9, 9] = .ok ⟨1, 2⟩ ∧
    Messages.notInterestedFromBytes [9, 9, 9, 9, 9] = .ok ⟨1, 3⟩ ∧
    Messages.haveFromBytes [9, 9, 9, 9, 9, 0, 0, 1, 2] =
      .ok ⟨5, 4, (Messages.beVal (Messages.sliceN [9, 9, 9, 9, 9, 0, 0, 1, 2] 5 4) : Int)⟩ ∧
    Messages.requestFromBytes [9, 9, 9, 9, 9, 0, 0, 0, 1, 0, 0, 0, 2, 0, 0, 0, 3] =
      .ok ⟨13, 6,
        (Messages.beVal
          (Messages.sliceN [9, 9, 9, 9, 9, 0, 0, 0, 1, 0, 0, 0, 2, 0, 0, 0, 3] 5 4) : Int),
        (Messages.beVal
          (Messages.sliceN [9, 9, 9, 9, 9, 0, 0, 0, 1, 0, 0, 0, 2, 0, 0, 0, 3] 9 4) : Int),
        (Messages.beVal
          (Messages.sliceN [9, 9, 9, 9, 9, 0, 0, 0, 1, 0, 0, 0, 2, 0, 0, 0, 3] 13 4) : Int)⟩ ∧
    Messages.cancelFromBytes [9, 9, 9, 9, 9, 0, 0, 0, 1, 0, 0, 0, 2, 0, 0, 0, 3] =
      .ok ⟨13, 8,
        (Messages.beVal
          (Messages.sliceN [9, 9, 9, 9, 9, 0, 0, 0, 1, 0, 0, 0, 2, 0, 0, 0, 3] 5 4) : Int),
        (Messages.beVal
          (Messages.sliceN [9, 9, 9, 9, 9, 0, 0, 0, 1, 0, 0, 0, 2, 0, 0, 0, 3] 9 4) : Int),
        (Messages.beVal
          (Messages.sliceN [9, 9, 9, 9, 9, 0, 0, 0, 1, 0, 0, 0, 2, 0, 0, 0, 3] 13 4) : Int)⟩ ∧
    Messages.portFromBytes [9, 9, 9, 9, 9, 195, 80] =
      .ok ⟨3, 9, (Messages.beVal (Messages.sliceN [9, 9, 9, 9, 9, 195, 80] 5 2) : Int)⟩ :=
  ⟨claim_C10_fixed_from_bytes.1 [9, 9, 9, 9, 9] (by decide),
   claim_C10_fixed_from_bytes.2.1 [9, 9, 9, 9, 9] (by decide),
   claim_C10_fixed_from_bytes.2.2.1 [9, 9, 9, 9, 9] (by decide),
   claim_C10_fixed_from_bytes.2.2.2.1 [9, 9, 9, 9, 9] (by decide),
   claim_C10_fixed_from_bytes.2.2.2.2.1 [9, 9, 9, 9, 9, 0, 0, 1, 2] (by decide),
   claim_C10_fixed_from_bytes.2.2.2.2.2.1 [9, 9, 9, 9, 9, 0, 0, 0, 1, 0, 0, 0, 2, 0, 0, 0, 3]
     (by decide),
   claim_C10_fixed_from_bytes.2.2.2.2.2.2.1 [9, 9, 9, 9, 9, 0, 0, 0, 1, 0, 0, 0, 2, 0, 0, 0, 3]
     (by decide),
   claim_C10_fixed_from_bytes.2.2.2.2.2.2.2.1 [9, 9, 9, 9, 9, 195, 80] (by decide)⟩
